import Mathlib

/-! # ObjectDetectionModel (libadore, adore/apps/objectdetectionmodel.h)

A shallow embedding of `adore::apps::ObjectDetectionModel::run` and the
properties of its detection table and of the snapshot it publishes.

Conventions of the embedding.

* `double` values (time, coordinates, range, age) are rationals, and the
  comparisons of the source are the strict comparisons of the rationals.  The
  source performs two arithmetic operations on them, the difference of positions
  and the difference of times.  `runD`, with `ingestOneD`, `drainD` and
  `collectD`, takes both as the source computes them, rounded to the nearest
  `double` (`roundDouble`, IEEE 754 binary64, ties to even).  `run`, with
  `ingestOne`, `drain` and `collect`, takes both differences exactly.  Overflow,
  infinities and NaN are not modelled.
* `std::unordered_map<int, Participant>` is an association list of
  `(key, record)` pairs in iteration order.  The source does not fix where a
  new element lands in that order; here it is put last.  The functions neither
  assume nor check that keys are distinct; `TableOK` states it and is shown to
  hold in every reachable state.
* The collaborators of `run` (clock, parameters, ego motion state, feed) are
  the fields of `Inputs`; what `run` does to the outside (feed left pending,
  sets handed to the writer) is in `Outcome`.
-/

namespace adore
namespace apps

/-- Column vector of three scalars (`adoreMatrix<double,3,1>`). -/
structure Vec3 where
  x : ℚ
  y : ℚ
  z : ℚ
deriving DecidableEq, Repr

/-- Component-wise difference, the `operator-` in `p.getCenter()-ego_location_`. -/
def Vec3.sub (a b : Vec3) : Vec3 :=
  ⟨a.x - b.x, a.y - b.y, a.z - b.z⟩

/-- Sum of the squared components of a vector. -/
def Vec3.normSq (v : Vec3) : ℚ :=
  v.x * v.x + v.y * v.y + v.z * v.z

/-- Modelled from the spec: `adore::mad::norm2` is not part of the sources at
hand; the spec calls it the Euclidean distance.  The test `norm2(v) < r` is
written without a square root, as `0 < r` and `|v|² < r²`;
`norm2_lt_iff_sqrt` shows this is the comparison of the real square root. -/
def norm2_lt (v : Vec3) (r : ℚ) : Bool :=
  decide (0 < r ∧ v.normSq < r * r)

/-- Modelled from the spec: `adore::env::traffic::Participant` is declared
outside the sources at hand; the spec's data model gives it the identity, the
centre position, the time of observation and the certainty of existence. -/
structure Participant where
  trackingID : Int
  center : Vec3
  observationTime : ℚ
  existance_certainty_ : ℚ
deriving DecidableEq, Repr

/-- Sequence of participants handed to the writer (`TParticipantSet`). -/
abbrev TParticipantSet := List Participant

/-- Contents of `latest_data_`: pairs of key and stored record, in iteration order. -/
abbrev Table := List (Int × Participant)

/-- Member variables of `ObjectDetectionModel` that `run` reads or writes. -/
structure ObjectDetectionModel where
  simulationID_ : Int
  ego_location_ : Vec3
  latest_data_ : Table
deriving DecidableEq, Repr

/-- State of the collaborators at the time of a call of `run`: the clock
(`none` when `hasData()` is false), the two sensor parameters, the position of
the ego motion state and the updates pending in the feed. -/
structure Inputs where
  timer : Option ℚ
  objectDetectionRange : ℚ
  objectDiscardAge : ℚ
  egoX : ℚ
  egoY : ℚ
  feed : List Participant
deriving DecidableEq, Repr

/-- Result of a call of `run`: the object afterwards, the updates still
pending in the feed and the sets written, one per call of `write`. -/
structure Outcome where
  model : ObjectDetectionModel
  feed : List Participant
  written : List TParticipantSet
deriving DecidableEq, Repr

/-- The constructor: an empty table; `ego_location_` is not assigned by it and
is whatever `ego0` the memory holds. -/
def ObjectDetectionModel.construct (simulationID : Int) (ego0 : Vec3) : ObjectDetectionModel :=
  ⟨simulationID, ego0, []⟩

/-- Stored record under key `k`, if any (`find`). -/
def Table.find : Table → Int → Option Participant
  | [], _ => none
  | (k', q) :: rest, k => if k' = k then some q else Table.find rest k

/-- The call `emplace(k, p)`: inserts the pair when no element has key `k`,
and leaves the map as it is otherwise. -/
def Table.emplace (t : Table) (k : Int) (p : Participant) : Table :=
  if (t.find k).isSome then t else t ++ [(k, p)]

/-- The assignment `it->second = p` through the iterator to the element with key `k`. -/
def Table.assign : Table → Int → Participant → Table
  | [], _, _ => []
  | (k', q) :: rest, k, p =>
    if k' = k then (k', p) :: rest else (k', q) :: Table.assign rest k p

/-- One pass of the body of the `while` loop, for the update `p` taken from the feed. -/
def ingestOne (simulationID : Int) (ego : Vec3) (sensor_range : ℚ)
    (t : Table) (p : Participant) : Table :=
  if p.trackingID ≠ simulationID then
    if norm2_lt (p.center.sub ego) sensor_range then
      (t.emplace p.trackingID p).assign p.trackingID p
    else t
  else t

/-- The `while (hasNext())` loop over the pending updates, first to last. -/
def drain (simulationID : Int) (ego : Vec3) (sensor_range : ℚ) :
    Table → List Participant → Table
  | t, [] => t
  | t, p :: rest => drain simulationID ego sensor_range
      (ingestOne simulationID ego sensor_range t p) rest

/-- The assignment `p.existance_certainty_ = 100.0`. -/
def stamp (p : Participant) : Participant :=
  { p with existance_certainty_ := 100 }

/-- The `for (auto& pair : latest_data_)` loop: the table after it (records are
taken by reference, so the certainty written is written to the table) and the
set collected by `push_back`. -/
def collect (t_now discard_age : ℚ) : Table → Table × TParticipantSet
  | [] => ([], [])
  | (k, p) :: rest =>
    let r := collect t_now discard_age rest
    if t_now - p.observationTime < discard_age then
      ((k, stamp p) :: r.1, stamp p :: r.2)
    else
      ((k, p) :: r.1, r.2)

/-- The method `run`. -/
def run (m : ObjectDetectionModel) (w : Inputs) : Outcome :=
  match w.timer with
  | none => ⟨m, w.feed, []⟩
  | some t_now =>
    let sensor_range := w.objectDetectionRange
    let discard_age := w.objectDiscardAge
    let position : Vec3 := ⟨w.egoX, w.egoY, 0⟩
    let ingested := drain m.simulationID_ position sensor_range m.latest_data_ w.feed
    let r := collect t_now discard_age ingested
    ⟨⟨m.simulationID_, position, r.1⟩, [], [r.2]⟩

/-- States that can be reached: the object as constructed, and the object
after any call of `run` on a reachable object, whatever the collaborators hold. -/
inductive Reachable : ObjectDetectionModel → Prop
  | init (simulationID : Int) (ego0 : Vec3) :
      Reachable (ObjectDetectionModel.construct simulationID ego0)
  | step (m : ObjectDetectionModel) (w : Inputs) :
      Reachable m → Reachable (run m w).model

/-- Well-formedness of a table: keys are distinct, as in any
`std::unordered_map`, and every record is stored under its own identity. -/
def TableOK (t : Table) : Prop :=
  (t.map Prod.fst).Nodup ∧ ∀ e ∈ t, e.2.trackingID = e.1

/-- Euclidean distance between `a` and `b` strictly below `r`, over the reals. -/
def distLt (a b : Vec3) (r : ℚ) : Prop :=
  Real.sqrt ((((a.x - b.x) ^ 2 + (a.y - b.y) ^ 2 + (a.z - b.z) ^ 2 : ℚ) : ℝ)) < (r : ℝ)

/-- Record kept in the table by the output loop for a stored record. -/
def restamp (t_now discard_age : ℚ) (p : Participant) : Participant :=
  if t_now - p.observationTime < discard_age then stamp p else p

/-- Sample object: ego identity 1, two stored records with certainties 30 and 40. -/
def sampleModel : ObjectDetectionModel :=
  ⟨1, ⟨0, 0, 0⟩, [(7, ⟨7, ⟨10, 0, 0⟩, 0, 30⟩), (8, ⟨8, ⟨0, 20, 0⟩, 1, 40⟩)]⟩

/-- Sample cycle: time 5, range 50, discard age 5, ego at the origin, one pending update. -/
def sampleInputs : Inputs :=
  ⟨some 5, 50, 5, 0, 0, [⟨9, ⟨3, 4, 0⟩, 5, 10⟩]⟩

/-- Sample first cycle: at time 10 with discard age 5, an update of participant 7
observed at time 0 with certainty 30 is stored but is too old to be published. -/
def staleInputs : Inputs :=
  ⟨some 10, 50, 5, 0, 0, [⟨7, ⟨10, 0, 0⟩, 0, 30⟩]⟩

/-- Sample second cycle: still time 10, the discard age now 20, and the one
pending update carries identity 1. -/
def selfInputs : Inputs :=
  ⟨some 10, 50, 20, 0, 0, [⟨1, ⟨1, 0, 0⟩, 10, 50⟩]⟩

/-- Sample feed: two in-range updates of participant 7, then one far out of range. -/
def sampleFeed : List Participant :=
  [⟨7, ⟨10, 0, 0⟩, 0, 30⟩, ⟨7, ⟨20, 0, 0⟩, 1, 40⟩, ⟨7, ⟨500, 0, 0⟩, 2, 50⟩]

/-- Two records that agree in identity, centre and observation time, and so
differ at most in the certainty of existence. -/
def sameButCertainty (p q : Participant) : Prop :=
  p.trackingID = q.trackingID ∧ p.center = q.center ∧
    p.observationTime = q.observationTime

/-- Sample cycle: time 0, range 50, discard age 5, ego at the origin, and a
pending update of participant 7 at distance 10. -/
def nearInputs : Inputs :=
  ⟨some 0, 50, 5, 0, 0, [⟨7, ⟨10, 0, 0⟩, 0, 30⟩]⟩

/-- Sample cycle: time 1, range 50, discard age 5, the ego moved to (1000, 0),
no pending update. -/
def movedInputs : Inputs :=
  ⟨some 1, 50, 5, 1000, 0, []⟩

/-- The sample object with other certainties in its two stored records. -/
def sampleModelB : ObjectDetectionModel :=
  ⟨1, ⟨0, 0, 0⟩, [(7, ⟨7, ⟨10, 0, 0⟩, 0, 1⟩), (8, ⟨8, ⟨0, 20, 0⟩, 1, 2⟩)]⟩

/-- The sample cycle with another certainty in its pending update. -/
def sampleInputsB : Inputs :=
  ⟨some 5, 50, 5, 0, 0, [⟨9, ⟨3, 4, 0⟩, 5, 99⟩]⟩

/-- Sample feed: updates of participants 7 and 8 interleaved, two of each. -/
def feedA : List Participant :=
  [⟨7, ⟨10, 0, 0⟩, 0, 30⟩, ⟨8, ⟨0, 20, 0⟩, 1, 40⟩, ⟨7, ⟨11, 0, 0⟩, 2, 50⟩,
    ⟨8, ⟨0, 21, 0⟩, 3, 60⟩]

/-- The updates of `feedA` in another order, those of participant 8 first, the
order among the updates of each participant kept. -/
def feedB : List Participant :=
  [⟨8, ⟨0, 20, 0⟩, 1, 40⟩, ⟨8, ⟨0, 21, 0⟩, 3, 60⟩, ⟨7, ⟨10, 0, 0⟩, 0, 30⟩,
    ⟨7, ⟨11, 0, 0⟩, 2, 50⟩]

/-- The power `2 ^ e` as a rational, for an integer exponent. -/
def pow2 (e : Int) : ℚ :=
  if 0 ≤ e then ((2 ^ e.toNat : Nat) : ℚ) else 1 / ((2 ^ (-e).toNat : Nat) : ℚ)

/-- Number of halvings that bring `n` below 2, at most `fuel` of them; with
`fuel = n` this is the integer part of the binary logarithm of `n ≥ 1`. -/
def log2Fuel : Nat → Nat → Nat
  | 0, _ => 0
  | fuel + 1, n => if 2 ≤ n then log2Fuel fuel (n / 2) + 1 else 0

/-- For `a > 0`, the exponent `e` with `2 ^ e ≤ a < 2 ^ (e + 1)`. -/
def expOf (a : ℚ) : Int :=
  let e0 : Int := (log2Fuel a.num.natAbs a.num.natAbs : Int) - (log2Fuel a.den a.den : Int)
  if pow2 e0 ≤ a then e0 else e0 - 1

/-- Nearest integer to `x ≥ 0`, a tie going to the even one. -/
def roundHalfEven (x : ℚ) : Int :=
  let f := Rat.floor x
  let r := x - f
  if r < 1 / 2 then f else if 1 / 2 < r then f + 1 else if f % 2 = 0 then f else f + 1

/-- The `double` nearest to `q` (IEEE 754 binary64, round to nearest, ties to
even): 53 significant bits, exponents from -1022 up, subnormal numbers below.
Overflow to infinity and NaN are not modelled: the exponent has no upper end. -/
def roundDouble (q : ℚ) : ℚ :=
  if q = 0 then 0 else
    let a := |q|
    let e := max (expOf a) (-1022)
    let u := pow2 (e - 52)
    let n := roundHalfEven (a / u)
    if q < 0 then -((n : ℚ) * u) else (n : ℚ) * u

/-- The `operator-` in `p.getCenter()-ego_location_` as the source computes it:
each component is the `double` difference of the components. -/
def Vec3.subD (a b : Vec3) : Vec3 :=
  ⟨roundDouble (a.x - b.x), roundDouble (a.y - b.y), roundDouble (a.z - b.z)⟩

/-- One pass of the body of the `while` loop, the difference of centre and ego
location taken in `double`. -/
def ingestOneD (simulationID : Int) (ego : Vec3) (sensor_range : ℚ)
    (t : Table) (p : Participant) : Table :=
  if p.trackingID ≠ simulationID then
    if norm2_lt (p.center.subD ego) sensor_range then
      (t.emplace p.trackingID p).assign p.trackingID p
    else t
  else t

/-- The `while (hasNext())` loop, the range test in `double` as in `ingestOneD`. -/
def drainD (simulationID : Int) (ego : Vec3) (sensor_range : ℚ) :
    Table → List Participant → Table
  | t, [] => t
  | t, p :: rest => drainD simulationID ego sensor_range
      (ingestOneD simulationID ego sensor_range t p) rest

/-- The `for (auto& pair : latest_data_)` loop with the age
`t_now - p.getObservationTime()` taken in `double`. -/
def collectD (t_now discard_age : ℚ) : Table → Table × TParticipantSet
  | [] => ([], [])
  | (k, p) :: rest =>
    let r := collectD t_now discard_age rest
    if roundDouble (t_now - p.observationTime) < discard_age then
      ((k, stamp p) :: r.1, stamp p :: r.2)
    else
      ((k, p) :: r.1, r.2)

/-- The method `run` with its two subtractions, of positions and of times, in
`double`. -/
def runD (m : ObjectDetectionModel) (w : Inputs) : Outcome :=
  match w.timer with
  | none => ⟨m, w.feed, []⟩
  | some t_now =>
    let sensor_range := w.objectDetectionRange
    let discard_age := w.objectDiscardAge
    let position : Vec3 := ⟨w.egoX, w.egoY, 0⟩
    let ingested := drainD m.simulationID_ position sensor_range m.latest_data_ w.feed
    let r := collectD t_now discard_age ingested
    ⟨⟨m.simulationID_, position, r.1⟩, [], [r.2]⟩

/-- States that can be reached by calls of `runD` from the object as constructed. -/
inductive ReachableD : ObjectDetectionModel → Prop
  | init (simulationID : Int) (ego0 : Vec3) :
      ReachableD (ObjectDetectionModel.construct simulationID ego0)
  | step (m : ObjectDetectionModel) (w : Inputs) :
      ReachableD m → ReachableD (runD m w).model

/-- Euclidean norm of the difference of `a` and `b` as computed in `double`,
component by component, strictly below `r`. -/
def distLtD (a b : Vec3) (r : ℚ) : Prop :=
  Real.sqrt ((((roundDouble (a.x - b.x)) ^ 2 + (roundDouble (a.y - b.y)) ^ 2
    + (roundDouble (a.z - b.z)) ^ 2 : ℚ) : ℝ)) < (r : ℝ)

/-- Record kept in the table by the output loop of `runD` for a stored record. -/
def restampD (t_now discard_age : ℚ) (p : Participant) : Participant :=
  if roundDouble (t_now - p.observationTime) < discard_age then stamp p else p

/-- Sample cycle: time 1, range 50, discard age 1, ego at the origin; the pending
update of participant 9 was observed at time `2 ^ (-60)`, so that its age is below
the discard age and the `double` nearest to its age is the discard age. -/
def ageEdgeInputs : Inputs :=
  ⟨some 1, 50, 1, 0, 0, [⟨9, ⟨3, 4, 0⟩, pow2 (-60), 10⟩]⟩

/-- Sample cycle: time 0, range 1, discard age 5, ego at `(2 ^ (-60), 0)`; the
pending update of participant 7 has its centre at `(1, 0, 0)`, at a distance below
the range whose `double` value is the range. -/
def rangeEdgeInputs : Inputs :=
  ⟨some 0, 1, 5, pow2 (-60), 0, [⟨7, ⟨1, 0, 0⟩, 0, 30⟩]⟩

/-- Sample cycle without clock data: an update of participant 7 at distance 10
is pending, the range is 50. -/
def noClockInputs : Inputs :=
  ⟨none, 50, 5, 0, 0, [⟨7, ⟨10, 0, 0⟩, 0, 30⟩]⟩

/-- Sample feed: two updates of participant 7, at `(1/2, 0, 0)` and at `(1, 0, 0)`. -/
def rangeEdgeFeed : List Participant :=
  [⟨7, ⟨1 / 2, 0, 0⟩, 0, 30⟩, ⟨7, ⟨1, 0, 0⟩, 1, 40⟩]

/-! ## The range test -/

theorem Vec3.normSq_nonneg (v : Vec3) : 0 ≤ v.normSq := by
  unfold Vec3.normSq
  nlinarith [mul_self_nonneg v.x, mul_self_nonneg v.y, mul_self_nonneg v.z]

/-- The test of the source is the comparison of the real Euclidean distance. -/
theorem norm2_lt_iff_sqrt (a b : Vec3) (r : ℚ) :
    norm2_lt (a.sub b) r = true ↔ distLt a b r := by
  have hsq : (a.x - b.x) ^ 2 + (a.y - b.y) ^ 2 + (a.z - b.z) ^ 2 = (a.sub b).normSq := by
    simp only [Vec3.normSq, Vec3.sub]; ring
  have h0 : (0 : ℝ) ≤ (((a.sub b).normSq : ℚ) : ℝ) := by
    exact_mod_cast Vec3.normSq_nonneg (a.sub b)
  unfold distLt norm2_lt
  rw [hsq, decide_eq_true_iff]
  constructor
  · rintro ⟨hr, hlt⟩
    have hr' : (0 : ℝ) < (r : ℝ) := by exact_mod_cast hr
    rw [Real.sqrt_lt' hr']
    have : (((a.sub b).normSq : ℚ) : ℝ) < ((r * r : ℚ) : ℝ) := by exact_mod_cast hlt
    simpa [pow_two] using this
  · intro h
    have hr' : (0 : ℝ) < (r : ℝ) := lt_of_le_of_lt (Real.sqrt_nonneg _) h
    have hr : 0 < r := by exact_mod_cast hr'
    refine ⟨hr, ?_⟩
    rw [Real.sqrt_lt' hr'] at h
    have : (((a.sub b).normSq : ℚ) : ℝ) < ((r * r : ℚ) : ℝ) := by
      simpa [pow_two] using h
    exact_mod_cast this

theorem norm2_lt_false_iff (a b : Vec3) (r : ℚ) :
    norm2_lt (a.sub b) r = false ↔ ¬ distLt a b r := by
  rw [← norm2_lt_iff_sqrt]; simp

/-! ## The table -/

theorem Table.find_isSome_iff (t : Table) (k : Int) :
    (t.find k).isSome = true ↔ k ∈ t.map Prod.fst := by
  induction t with
  | nil => simp [Table.find]
  | cons e rest ih =>
    obtain ⟨k', q⟩ := e
    by_cases h : k' = k
    · simp [Table.find, h]
    · have h' : ¬ k = k' := fun c => h c.symm
      simp [Table.find, h, h', ih]

theorem Table.find_eq_none_iff (t : Table) (k : Int) :
    t.find k = none ↔ k ∉ t.map Prod.fst := by
  rw [← Table.find_isSome_iff]
  cases t.find k <;> simp

theorem Table.find_mem (t : Table) (k : Int) (p : Participant) :
    t.find k = some p → (k, p) ∈ t := by
  induction t with
  | nil => simp [Table.find]
  | cons e rest ih =>
    obtain ⟨k', q⟩ := e
    by_cases h : k' = k
    · subst h
      simp only [Table.find, if_true, Option.some.injEq]
      rintro rfl
      exact List.mem_cons_self _ _
    · simp only [Table.find, h, if_false]
      intro hf
      exact List.mem_cons_of_mem _ (ih hf)

theorem Table.find_of_mem (t : Table) (k : Int) (p : Participant)
    (hnd : (t.map Prod.fst).Nodup) (hmem : (k, p) ∈ t) : t.find k = some p := by
  induction t with
  | nil => simp at hmem
  | cons e rest ih =>
    obtain ⟨k', q⟩ := e
    simp only [List.map_cons, List.nodup_cons] at hnd
    rcases List.mem_cons.mp hmem with h | h
    · cases h
      simp [Table.find]
    · have hk : k ∈ rest.map Prod.fst := List.mem_map.mpr ⟨(k, p), h, rfl⟩
      have hne : ¬ k' = k := fun c => hnd.1 (c ▸ hk)
      simp only [Table.find, hne, if_false]
      exact ih hnd.2 h

theorem Table.find_append (t s : Table) (k : Int) :
    (t ++ s).find k = (t.find k).or (s.find k) := by
  induction t with
  | nil => simp [Table.find]
  | cons e rest ih =>
    obtain ⟨k', q⟩ := e
    by_cases h : k' = k
    · simp [Table.find, h]
    · simp [Table.find, h, ih]

theorem Table.keys_assign (t : Table) (k : Int) (p : Participant) :
    (t.assign k p).map Prod.fst = t.map Prod.fst := by
  induction t with
  | nil => simp [Table.assign]
  | cons e rest ih =>
    obtain ⟨k', q⟩ := e
    by_cases h : k' = k
    · simp [Table.assign, h]
    · simp [Table.assign, h, ih]

theorem Table.find_assign_self (t : Table) (k : Int) (p : Participant)
    (hk : k ∈ t.map Prod.fst) : (t.assign k p).find k = some p := by
  induction t with
  | nil => simp at hk
  | cons e rest ih =>
    obtain ⟨k', q⟩ := e
    by_cases h : k' = k
    · simp [Table.assign, Table.find, h]
    · have h' : ¬ k = k' := fun c => h c.symm
      simp only [List.map_cons, List.mem_cons, h', false_or] at hk
      simp [Table.assign, Table.find, h, ih hk]

theorem Table.find_assign_ne (t : Table) (k k' : Int) (p : Participant)
    (hne : k' ≠ k) : (t.assign k p).find k' = t.find k' := by
  induction t with
  | nil => simp [Table.assign]
  | cons e rest ih =>
    obtain ⟨k0, q⟩ := e
    by_cases h : k0 = k
    · subst h
      have h' : ¬ k0 = k' := fun c => hne c.symm
      simp [Table.assign, Table.find, h']
    · by_cases h2 : k0 = k'
      · subst h2
        simp [Table.assign, Table.find, h]
      · simp [Table.assign, Table.find, h, h2, ih]

theorem Table.mem_assign (t : Table) (k : Int) (p : Participant) (e : Int × Participant)
    (he : e ∈ t.assign k p) : e ∈ t ∨ e = (k, p) := by
  induction t with
  | nil => simp [Table.assign] at he
  | cons e0 rest ih =>
    obtain ⟨k0, q⟩ := e0
    by_cases h : k0 = k
    · subst h
      simp only [Table.assign, if_true, List.mem_cons] at he
      rcases he with he | he
      · exact Or.inr he
      · exact Or.inl (List.mem_cons_of_mem _ he)
    · simp only [Table.assign, h, if_false, List.mem_cons] at he
      rcases he with he | he
      · exact Or.inl (he ▸ List.mem_cons_self _ _)
      · rcases ih he with h1 | h1
        · exact Or.inl (List.mem_cons_of_mem _ h1)
        · exact Or.inr h1

theorem Table.keys_emplace (t : Table) (k : Int) (p : Participant) :
    (t.emplace k p).map Prod.fst =
      if k ∈ t.map Prod.fst then t.map Prod.fst else t.map Prod.fst ++ [k] := by
  unfold Table.emplace
  by_cases h : k ∈ t.map Prod.fst
  · rw [if_pos ((Table.find_isSome_iff t k).mpr h), if_pos h]
  · have h' : ¬ (t.find k).isSome = true := fun c => h ((Table.find_isSome_iff t k).mp c)
    rw [if_neg h', if_neg h]
    simp

theorem Table.mem_keys_emplace (t : Table) (k : Int) (p : Participant) :
    k ∈ (t.emplace k p).map Prod.fst := by
  rw [Table.keys_emplace]
  by_cases h : k ∈ t.map Prod.fst
  · rw [if_pos h]; exact h
  · rw [if_neg h]; simp

theorem Table.find_emplace_ne (t : Table) (k k' : Int) (p : Participant)
    (hne : k' ≠ k) : (t.emplace k p).find k' = t.find k' := by
  unfold Table.emplace
  by_cases h : (t.find k).isSome = true
  · rw [if_pos h]
  · rw [if_neg h, Table.find_append]
    have h' : ¬ k = k' := fun c => hne c.symm
    simp [Table.find, h']

theorem Table.mem_emplace (t : Table) (k : Int) (p : Participant) (e : Int × Participant)
    (he : e ∈ t.emplace k p) : e ∈ t ∨ e = (k, p) := by
  unfold Table.emplace at he
  by_cases h : (t.find k).isSome = true
  · rw [if_pos h] at he; exact Or.inl he
  · rw [if_neg h] at he
    simpa using he

/-! ## Ingestion of updates -/

theorem TableOK_nil : TableOK [] := by
  simp [TableOK]

theorem TableOK_upsert (t : Table) (p : Participant) (h : TableOK t) :
    TableOK ((t.emplace p.trackingID p).assign p.trackingID p) := by
  obtain ⟨hnd, hid⟩ := h
  refine ⟨?_, ?_⟩
  · rw [Table.keys_assign, Table.keys_emplace]
    by_cases hk : p.trackingID ∈ t.map Prod.fst
    · rw [if_pos hk]; exact hnd
    · rw [if_neg hk]
      exact List.Nodup.append hnd (List.nodup_singleton _) (by simpa using hk)
  · intro e he
    rcases Table.mem_assign _ _ _ _ he with h1 | h1
    · rcases Table.mem_emplace _ _ _ _ h1 with h2 | h2
      · exact hid e h2
      · rw [h2]
    · rw [h1]

theorem find_ingestOne (sid : Int) (ego : Vec3) (r : ℚ) (t : Table) (p : Participant)
    (k : Int) :
    (ingestOne sid ego r t p).find k =
      if p.trackingID = k ∧ p.trackingID ≠ sid ∧ norm2_lt (p.center.sub ego) r = true
      then some p else t.find k := by
  unfold ingestOne
  by_cases h1 : p.trackingID ≠ sid
  · by_cases h2 : norm2_lt (p.center.sub ego) r = true
    · rw [if_pos h1, if_pos h2]
      by_cases h3 : p.trackingID = k
      · rw [if_pos ⟨h3, h1, h2⟩, ← h3]
        exact Table.find_assign_self _ _ _ (Table.mem_keys_emplace _ _ _)
      · rw [if_neg (fun c => h3 c.1)]
        have hne : k ≠ p.trackingID := fun c => h3 c.symm
        rw [Table.find_assign_ne _ _ _ _ hne, Table.find_emplace_ne _ _ _ _ hne]
    · rw [if_pos h1, if_neg h2, if_neg (fun c => h2 c.2.2)]
  · rw [if_neg h1, if_neg (fun c => h1 c.2.1)]

theorem TableOK_ingestOne (sid : Int) (ego : Vec3) (r : ℚ) (t : Table) (p : Participant)
    (h : TableOK t) : TableOK (ingestOne sid ego r t p) := by
  unfold ingestOne
  split
  · split
    · exact TableOK_upsert t p h
    · exact h
  · exact h

theorem mem_ingestOne (sid : Int) (ego : Vec3) (r : ℚ) (t : Table) (p : Participant)
    (e : Int × Participant) (he : e ∈ ingestOne sid ego r t p) :
    e ∈ t ∨ (e = (p.trackingID, p) ∧ p.trackingID ≠ sid) := by
  unfold ingestOne at he
  by_cases h1 : p.trackingID ≠ sid
  · by_cases h2 : norm2_lt (p.center.sub ego) r = true
    · rw [if_pos h1, if_pos h2] at he
      rcases Table.mem_assign _ _ _ _ he with h3 | h3
      · rcases Table.mem_emplace _ _ _ _ h3 with h4 | h4
        · exact Or.inl h4
        · exact Or.inr ⟨h4, h1⟩
      · exact Or.inr ⟨h3, h1⟩
    · rw [if_pos h1, if_neg h2] at he; exact Or.inl he
  · rw [if_neg h1] at he; exact Or.inl he

theorem drain_append (sid : Int) (ego : Vec3) (r : ℚ) (t : Table) (l₁ l₂ : List Participant) :
    drain sid ego r t (l₁ ++ l₂) = drain sid ego r (drain sid ego r t l₁) l₂ := by
  induction l₁ generalizing t with
  | nil => rfl
  | cons p rest ih => simp [drain, ih]

theorem TableOK_drain (sid : Int) (ego : Vec3) (r : ℚ) (t : Table) (feed : List Participant)
    (h : TableOK t) : TableOK (drain sid ego r t feed) := by
  induction feed generalizing t with
  | nil => exact h
  | cons p rest ih => exact ih _ (TableOK_ingestOne sid ego r t p h)

theorem find_drain_untouched (sid : Int) (ego : Vec3) (r : ℚ) (t : Table)
    (feed : List Participant) (k : Int)
    (h : ∀ u ∈ feed, u.trackingID = k →
      u.trackingID = sid ∨ norm2_lt (u.center.sub ego) r = false) :
    (drain sid ego r t feed).find k = t.find k := by
  induction feed generalizing t with
  | nil => rfl
  | cons p rest ih =>
    simp only [drain]
    rw [ih _ (fun u hu => h u (List.mem_cons_of_mem _ hu)), find_ingestOne]
    have hp := h p (List.mem_cons_self _ _)
    have : ¬ (p.trackingID = k ∧ p.trackingID ≠ sid ∧ norm2_lt (p.center.sub ego) r = true) := by
      rintro ⟨h1, h2, h3⟩
      rcases hp h1 with h4 | h4
      · exact h2 h4
      · rw [h3] at h4; exact Bool.noConfusion h4
    rw [if_neg this]

theorem mem_drain (sid : Int) (ego : Vec3) (r : ℚ) (t : Table) (feed : List Participant)
    (e : Int × Participant) (he : e ∈ drain sid ego r t feed) :
    e ∈ t ∨ (e.2.trackingID = e.1 ∧ e.1 ≠ sid) := by
  induction feed generalizing t with
  | nil => exact Or.inl he
  | cons p rest ih =>
    simp only [drain] at he
    rcases ih _ he with h | h
    · rcases mem_ingestOne sid ego r t p e h with h1 | ⟨h1, h2⟩
      · exact Or.inl h1
      · exact Or.inr (by rw [h1]; exact ⟨rfl, h2⟩)
    · exact Or.inr h

/-! ## The output loop -/

theorem collect_fst (t_now age : ℚ) (t : Table) :
    (collect t_now age t).1 = t.map (fun e => (e.1, restamp t_now age e.2)) := by
  induction t with
  | nil => rfl
  | cons e rest ih =>
    obtain ⟨k, p⟩ := e
    by_cases h : t_now - p.observationTime < age
    · simp [collect, restamp, h, ih]
    · simp [collect, restamp, h, ih]

theorem collect_snd (t_now age : ℚ) (t : Table) :
    (collect t_now age t).2 =
      (t.filter (fun e => decide (t_now - e.2.observationTime < age))).map
        (fun e => stamp e.2) := by
  induction t with
  | nil => rfl
  | cons e rest ih =>
    obtain ⟨k, p⟩ := e
    by_cases h : t_now - p.observationTime < age
    · simp [collect, h, ih]
    · simp [collect, h, ih]

theorem Table.find_map_snd (t : Table) (f : Participant → Participant) (k : Int) :
    Table.find (t.map (fun e => (e.1, f e.2))) k = (t.find k).map f := by
  induction t with
  | nil => rfl
  | cons e rest ih =>
    obtain ⟨k', q⟩ := e
    by_cases h : k' = k
    · simp [Table.find, h]
    · simp [Table.find, h, ih]

theorem restamp_trackingID (t_now age : ℚ) (p : Participant) :
    (restamp t_now age p).trackingID = p.trackingID := by
  unfold restamp stamp
  split <;> rfl

theorem TableOK_collect (t_now age : ℚ) (t : Table) (h : TableOK t) :
    TableOK (collect t_now age t).1 := by
  obtain ⟨hnd, hid⟩ := h
  rw [collect_fst]
  refine ⟨?_, ?_⟩
  · simpa [List.map_map, Function.comp_def] using hnd
  · intro e he
    obtain ⟨e0, he0, rfl⟩ := List.mem_map.mp he
    simpa [restamp_trackingID] using hid e0 he0

/-! ## Reachable states -/

theorem run_simulationID (m : ObjectDetectionModel) (w : Inputs) :
    (run m w).model.simulationID_ = m.simulationID_ := by
  unfold run
  cases w.timer <;> rfl

theorem TableOK_run (m : ObjectDetectionModel) (w : Inputs) (h : TableOK m.latest_data_) :
    TableOK (run m w).model.latest_data_ := by
  unfold run
  cases w.timer with
  | none => exact h
  | some t_now => exact TableOK_collect _ _ _ (TableOK_drain _ _ _ _ _ h)

theorem TableOK_of_reachable (m : ObjectDetectionModel) (h : Reachable m) :
    TableOK m.latest_data_ := by
  induction h with
  | init sid ego0 => exact TableOK_nil
  | step m w _ ih => exact TableOK_run m w ih

/-! ## Lookup in well-formed tables -/

theorem Table.filter_key_of_find (t : Table) (k : Int) (u : Participant)
    (hnd : (t.map Prod.fst).Nodup) (hf : t.find k = some u) :
    t.filter (fun e => decide (e.1 = k)) = [(k, u)] := by
  induction t with
  | nil => simp [Table.find] at hf
  | cons e rest ih =>
    obtain ⟨k', q⟩ := e
    simp only [List.map_cons, List.nodup_cons] at hnd
    by_cases h : k' = k
    · subst h
      simp only [Table.find, if_true, Option.some.injEq] at hf
      subst hf
      have hrest : rest.filter (fun e => decide (e.1 = k')) = [] := by
        rw [List.filter_eq_nil_iff]
        intro e he hdec
        have : e.1 = k' := of_decide_eq_true hdec
        exact hnd.1 (this ▸ List.mem_map.mpr ⟨e, he, rfl⟩)
      simp [List.filter_cons, hrest]
    · simp only [Table.find, h, if_false] at hf
      simp [List.filter_cons, h, ih hnd.2 hf]

theorem Table.filter_trackingID_of_find (t : Table) (k : Int) (u : Participant)
    (hok : TableOK t) (hf : t.find k = some u) :
    t.filter (fun e => decide (e.2.trackingID = k)) = [(k, u)] := by
  rw [← Table.filter_key_of_find t k u hok.1 hf]
  apply List.filter_congr
  intro e he
  rw [hok.2 e he]

theorem exists_last_of_exists {α : Type} (P : α → Prop) (l : List α)
    (h : ∃ v ∈ l, P v) :
    ∃ u pre post, l = pre ++ u :: post ∧ P u ∧ ∀ v ∈ post, ¬ P v := by
  induction l with
  | nil => obtain ⟨v, hv, _⟩ := h; simp at hv
  | cons a rest ih =>
    by_cases hr : ∃ v ∈ rest, P v
    · obtain ⟨u, pre, post, hl, hu, hpost⟩ := ih hr
      exact ⟨u, a :: pre, post, by rw [hl]; rfl, hu, hpost⟩
    · obtain ⟨v, hv, hPv⟩ := h
      rcases List.mem_cons.mp hv with h1 | h1
      · subst h1
        exact ⟨v, [], rest, rfl, hPv, fun x hx hPx => hr ⟨x, hx, hPx⟩⟩
      · exact absurd ⟨v, h1, hPv⟩ hr

theorem find_drain_last (sid : Int) (ego : Vec3) (r : ℚ) (t : Table)
    (pre post : List Participant) (u : Participant)
    (hself : u.trackingID ≠ sid) (hin : norm2_lt (u.center.sub ego) r = true)
    (hpost : ∀ v ∈ post, v.trackingID = u.trackingID →
      v.trackingID = sid ∨ norm2_lt (v.center.sub ego) r = false) :
    (drain sid ego r t (pre ++ u :: post)).find u.trackingID = some u := by
  rw [drain_append]
  simp only [drain]
  rw [find_drain_untouched sid ego r _ post u.trackingID hpost, find_ingestOne,
    if_pos ⟨rfl, hself, hin⟩]

/-! ## Sets published -/

theorem written_of_clock (m : ObjectDetectionModel) (w : Inputs) (t_now : ℚ)
    (hclock : w.timer = some t_now) :
    (run m w).written =
      [((drain m.simulationID_ ⟨w.egoX, w.egoY, 0⟩ w.objectDetectionRange
          m.latest_data_ w.feed).filter
        (fun e => decide (t_now - e.2.observationTime < w.objectDiscardAge))).map
        (fun e => stamp e.2)] := by
  unfold run
  rw [hclock]
  simp only [collect_snd]

theorem table_of_clock (m : ObjectDetectionModel) (w : Inputs) (t_now : ℚ)
    (hclock : w.timer = some t_now) :
    (run m w).model.latest_data_ =
      (drain m.simulationID_ ⟨w.egoX, w.egoY, 0⟩ w.objectDetectionRange
          m.latest_data_ w.feed).map
        (fun e => (e.1, restamp t_now w.objectDiscardAge e.2)) := by
  unfold run
  rw [hclock]
  simp only [collect_fst]

theorem find_run_of_clock (m : ObjectDetectionModel) (w : Inputs) (t_now : ℚ) (k : Int)
    (hclock : w.timer = some t_now) :
    (run m w).model.latest_data_.find k =
      ((drain m.simulationID_ ⟨w.egoX, w.egoY, 0⟩ w.objectDetectionRange
          m.latest_data_ w.feed).find k).map (restamp t_now w.objectDiscardAge) := by
  rw [table_of_clock m w t_now hclock, Table.find_map_snd]

/-! ## Changing the records of a table without touching identity or centre -/

theorem Table.emplace_map_snd (f : Participant → Participant) (t : Table) (k : Int)
    (p : Participant) :
    (t.emplace k p).map (fun e => (e.1, f e.2)) =
      Table.emplace (t.map (fun e => (e.1, f e.2))) k (f p) := by
  unfold Table.emplace
  rw [Table.find_map_snd, Option.isSome_map']
  split
  · rfl
  · simp

theorem Table.assign_map_snd (f : Participant → Participant) (t : Table) (k : Int)
    (p : Participant) :
    (t.assign k p).map (fun e => (e.1, f e.2)) =
      Table.assign (t.map (fun e => (e.1, f e.2))) k (f p) := by
  induction t with
  | nil => rfl
  | cons e rest ih =>
    obtain ⟨k', q⟩ := e
    by_cases h : k' = k
    · simp [Table.assign, h]
    · simp [Table.assign, h, ih]

theorem ingestOne_map_snd (f : Participant → Participant)
    (hid : ∀ p, (f p).trackingID = p.trackingID) (hc : ∀ p, (f p).center = p.center)
    (sid : Int) (ego : Vec3) (r : ℚ) (t : Table) (p : Participant) :
    (ingestOne sid ego r t p).map (fun e => (e.1, f e.2)) =
      ingestOne sid ego r (t.map (fun e => (e.1, f e.2))) (f p) := by
  unfold ingestOne
  rw [hid, hc]
  split
  · split
    · rw [Table.assign_map_snd, Table.emplace_map_snd]
    · rfl
  · rfl

theorem drain_map_snd (f : Participant → Participant)
    (hid : ∀ p, (f p).trackingID = p.trackingID) (hc : ∀ p, (f p).center = p.center)
    (sid : Int) (ego : Vec3) (r : ℚ) (t : Table) (feed : List Participant) :
    (drain sid ego r t feed).map (fun e => (e.1, f e.2)) =
      drain sid ego r (t.map (fun e => (e.1, f e.2))) (feed.map f) := by
  induction feed generalizing t with
  | nil => rfl
  | cons p rest ih =>
    simp only [drain, List.map_cons]
    rw [ih, ingestOne_map_snd f hid hc]

theorem stamp_eq_of_same (p q : Participant) (h : sameButCertainty p q) :
    stamp p = stamp q := by
  obtain ⟨h1, h2, h3⟩ := h
  cases p; cases q
  simp only [stamp] at *
  simp [h1, h2, h3]

theorem map_stamp_eq_of_same (l₁ l₂ : List Participant)
    (h : List.Forall₂ sameButCertainty l₁ l₂) : l₁.map stamp = l₂.map stamp := by
  induction h with
  | nil => rfl
  | cons hab _ ih => simp [stamp_eq_of_same _ _ hab, ih]

theorem table_stamp_eq_of_same (t₁ t₂ : Table)
    (h : List.Forall₂ (fun e f => e.1 = f.1 ∧ sameButCertainty e.2 f.2) t₁ t₂) :
    t₁.map (fun e => (e.1, stamp e.2)) = t₂.map (fun e => (e.1, stamp e.2)) := by
  induction h with
  | nil => rfl
  | cons hab _ ih => simp [hab.1, stamp_eq_of_same _ _ hab.2, ih]

theorem snapshot_of_stamped (t_now age : ℚ) (t : Table) :
    (t.filter (fun e => decide (t_now - e.2.observationTime < age))).map
        (fun e => stamp e.2) =
      ((t.map (fun e => (e.1, stamp e.2))).filter
        (fun e => decide (t_now - e.2.observationTime < age))).map (fun e => e.2) := by
  induction t with
  | nil => rfl
  | cons e rest ih =>
    by_cases h : t_now - e.2.observationTime < age
    · have h' : t_now - (stamp e.2).observationTime < age := h
      simp [List.filter_cons, h, h', ih]
    · have h' : ¬ t_now - (stamp e.2).observationTime < age := h
      simp [List.filter_cons, h, h', ih]

/-! ## Keys of the table through ingestion -/

theorem keys_ingestOne_of_present (sid : Int) (ego : Vec3) (r : ℚ) (t : Table)
    (p : Participant)
    (h : p.trackingID ≠ sid → norm2_lt (p.center.sub ego) r = true →
      p.trackingID ∈ t.map Prod.fst) :
    (ingestOne sid ego r t p).map Prod.fst = t.map Prod.fst := by
  unfold ingestOne
  split
  · split
    · rename_i h1 h2
      rw [Table.keys_assign, Table.keys_emplace, if_pos (h h1 h2)]
    · rfl
  · rfl

theorem keysNodup_ingestOne (sid : Int) (ego : Vec3) (r : ℚ) (t : Table) (p : Participant)
    (h : (t.map Prod.fst).Nodup) : ((ingestOne sid ego r t p).map Prod.fst).Nodup := by
  unfold ingestOne
  split
  · split
    · rw [Table.keys_assign, Table.keys_emplace]
      by_cases hk : p.trackingID ∈ t.map Prod.fst
      · rw [if_pos hk]; exact h
      · rw [if_neg hk]
        exact List.Nodup.append h (List.nodup_singleton _) (by simpa using hk)
    · exact h
  · exact h

theorem keysNodup_drain (sid : Int) (ego : Vec3) (r : ℚ) (t : Table) (feed : List Participant)
    (h : (t.map Prod.fst).Nodup) : ((drain sid ego r t feed).map Prod.fst).Nodup := by
  induction feed generalizing t with
  | nil => exact h
  | cons p rest ih => exact ih _ (keysNodup_ingestOne sid ego r t p h)

theorem mem_keys_ingestOne (sid : Int) (ego : Vec3) (r : ℚ) (t : Table) (p : Participant)
    (k : Int) (h : k ∈ t.map Prod.fst) : k ∈ (ingestOne sid ego r t p).map Prod.fst := by
  rw [← Table.find_isSome_iff] at h ⊢
  rw [find_ingestOne]
  split
  · rfl
  · exact h

theorem keys_drain_of_present (sid : Int) (ego : Vec3) (r : ℚ) (t : Table)
    (feed : List Participant)
    (h : ∀ u ∈ feed, u.trackingID ≠ sid → norm2_lt (u.center.sub ego) r = true →
      u.trackingID ∈ t.map Prod.fst) :
    (drain sid ego r t feed).map Prod.fst = t.map Prod.fst := by
  induction feed generalizing t with
  | nil => rfl
  | cons p rest ih =>
    simp only [drain]
    have hp := keys_ingestOne_of_present sid ego r t p (h p (List.mem_cons_self _ _))
    rw [ih, hp]
    intro u hu h1 h2
    rw [hp]
    exact h u (List.mem_cons_of_mem _ hu) h1 h2

theorem mem_keys_drain_of_accepted (sid : Int) (ego : Vec3) (r : ℚ) (t : Table)
    (feed : List Participant) (u : Participant) (hu : u ∈ feed)
    (hself : u.trackingID ≠ sid) (hin : norm2_lt (u.center.sub ego) r = true) :
    u.trackingID ∈ (drain sid ego r t feed).map Prod.fst := by
  have hex : ∃ v ∈ feed, v.trackingID = u.trackingID ∧
      norm2_lt (v.center.sub ego) r = true := ⟨u, hu, rfl, hin⟩
  obtain ⟨v, pre, post, hl, hvP, hpost⟩ := exists_last_of_exists
    (fun v => v.trackingID = u.trackingID ∧ norm2_lt (v.center.sub ego) r = true) feed hex
  have hv : v.trackingID = u.trackingID := hvP.1
  have hvin : norm2_lt (v.center.sub ego) r = true := hvP.2
  have hfind : (drain sid ego r t (pre ++ v :: post)).find v.trackingID = some v := by
    apply find_drain_last sid ego r t pre post v (by rw [hv]; exact hself) hvin
    intro x hx hxv
    right
    cases hb : norm2_lt (x.center.sub ego) r with
    | false => rfl
    | true => exact absurd ⟨hxv.trans hv, hb⟩ (hpost x hx)
  rw [← Table.find_isSome_iff, hl, ← hv, hfind]
  rfl

theorem Table.ext_of_find (t₁ t₂ : Table) (hkeys : t₁.map Prod.fst = t₂.map Prod.fst)
    (hnd : (t₁.map Prod.fst).Nodup) (hfind : ∀ k, t₁.find k = t₂.find k) : t₁ = t₂ := by
  induction t₁ generalizing t₂ with
  | nil =>
    cases t₂ with
    | nil => rfl
    | cons e rest => simp at hkeys
  | cons e₁ rest₁ ih =>
    cases t₂ with
    | nil => simp at hkeys
    | cons e₂ rest₂ =>
      obtain ⟨k₁, p₁⟩ := e₁
      obtain ⟨k₂, p₂⟩ := e₂
      simp only [List.map_cons, List.cons.injEq] at hkeys
      obtain ⟨hk, hrest⟩ := hkeys
      subst hk
      simp only [List.map_cons, List.nodup_cons] at hnd
      have hp : p₁ = p₂ := by
        have := hfind k₁
        simpa [Table.find] using this
      subst hp
      congr 1
      apply ih rest₂ hrest hnd.2
      intro k
      by_cases hk : k₁ = k
      · subst hk
        rw [(Table.find_eq_none_iff rest₁ k₁).mpr hnd.1,
          (Table.find_eq_none_iff rest₂ k₁).mpr (hrest ▸ hnd.1)]
      · have := hfind k
        simpa [Table.find, hk] using this

/-! ## Dependence of a stored record on the updates of its identity -/

theorem find_drain_congr (sid : Int) (ego : Vec3) (r : ℚ) (t t' : Table)
    (feed : List Participant) (k : Int) (h : t.find k = t'.find k) :
    (drain sid ego r t feed).find k = (drain sid ego r t' feed).find k := by
  induction feed generalizing t t' with
  | nil => exact h
  | cons p rest ih =>
    simp only [drain]
    apply ih
    rw [find_ingestOne, find_ingestOne, h]

theorem find_drain_filter (sid : Int) (ego : Vec3) (r : ℚ) (t : Table)
    (feed : List Participant) (k : Int) :
    (drain sid ego r t feed).find k =
      (drain sid ego r t (feed.filter (fun u => decide (u.trackingID = k)))).find k := by
  induction feed generalizing t with
  | nil => rfl
  | cons p rest ih =>
    by_cases hp : p.trackingID = k
    · simp only [drain, List.filter_cons, hp, decide_True, if_true]
      exact ih _
    · simp only [drain, List.filter_cons, hp, decide_False, Bool.false_eq_true, if_false]
      rw [ih]
      apply find_drain_congr
      rw [find_ingestOne, if_neg (fun c => hp c.1)]

theorem mem_iff_find (t : Table) (hnd : (t.map Prod.fst).Nodup) (e : Int × Participant) :
    e ∈ t ↔ t.find e.1 = some e.2 :=
  ⟨fun h => Table.find_of_mem t e.1 e.2 hnd h, fun h => Table.find_mem t e.1 e.2 h⟩

theorem restamp_restamp (t_now age : ℚ) (p : Participant) :
    restamp t_now age (restamp t_now age p) = restamp t_now age p := by
  by_cases h : t_now - p.observationTime < age
  · have h' : t_now - (stamp p).observationTime < age := h
    simp [restamp, h, h']
    rfl
  · simp [restamp, h]

theorem snapshot_of_restamped (t_now age : ℚ) (t : Table) :
    (t.filter (fun e => decide (t_now - e.2.observationTime < age))).map
        (fun e => stamp e.2) =
      ((t.map (fun e => (e.1, restamp t_now age e.2))).filter
        (fun e => decide (t_now - e.2.observationTime < age))).map (fun e => e.2) := by
  induction t with
  | nil => rfl
  | cons e rest ih =>
    by_cases h : t_now - e.2.observationTime < age
    · have h' : t_now - (stamp e.2).observationTime < age := h
      simp [List.filter_cons, restamp, h, h', ih]
    · simp [List.filter_cons, restamp, h, ih]

/-! ## Records too old to be published -/

theorem find_ingestOneD (sid : Int) (ego : Vec3) (r : ℚ) (t : Table) (p : Participant)
    (k : Int) :
    (ingestOneD sid ego r t p).find k =
      if p.trackingID = k ∧ p.trackingID ≠ sid ∧ norm2_lt (p.center.subD ego) r = true
      then some p else t.find k := by
  unfold ingestOneD
  by_cases h1 : p.trackingID ≠ sid
  · by_cases h2 : norm2_lt (p.center.subD ego) r = true
    · rw [if_pos h1, if_pos h2]
      by_cases h3 : p.trackingID = k
      · rw [if_pos ⟨h3, h1, h2⟩, ← h3]
        exact Table.find_assign_self _ _ _ (Table.mem_keys_emplace _ _ _)
      · rw [if_neg (fun c => h3 c.1)]
        have hne : k ≠ p.trackingID := fun c => h3 c.symm
        rw [Table.find_assign_ne _ _ _ _ hne, Table.find_emplace_ne _ _ _ _ hne]
    · rw [if_pos h1, if_neg h2, if_neg (fun c => h2 c.2.2)]
  · rw [if_neg h1, if_neg (fun c => h1 c.2.1)]

theorem TableOK_ingestOneD (sid : Int) (ego : Vec3) (r : ℚ) (t : Table) (p : Participant)
    (h : TableOK t) : TableOK (ingestOneD sid ego r t p) := by
  unfold ingestOneD
  split
  · split
    · exact TableOK_upsert t p h
    · exact h
  · exact h

theorem ingestOneD_rejected (sid : Int) (ego : Vec3) (r : ℚ) (t : Table) (p : Participant)
    (h : p.trackingID = sid ∨ norm2_lt (p.center.subD ego) r = false) :
    ingestOneD sid ego r t p = t := by
  unfold ingestOneD
  rcases h with h | h
  · simp [h]
  · simp [h]

theorem drainD_append (sid : Int) (ego : Vec3) (r : ℚ) (t : Table) (l₁ l₂ : List Participant) :
    drainD sid ego r t (l₁ ++ l₂) = drainD sid ego r (drainD sid ego r t l₁) l₂ := by
  induction l₁ generalizing t with
  | nil => rfl
  | cons p rest ih => simp [drainD, ih]

theorem TableOK_drainD (sid : Int) (ego : Vec3) (r : ℚ) (t : Table) (feed : List Participant)
    (h : TableOK t) : TableOK (drainD sid ego r t feed) := by
  induction feed generalizing t with
  | nil => exact h
  | cons p rest ih => exact ih _ (TableOK_ingestOneD sid ego r t p h)

theorem drainD_rejected (sid : Int) (ego : Vec3) (r : ℚ) (t : Table) (feed : List Participant)
    (h : ∀ u ∈ feed, u.trackingID = sid ∨ norm2_lt (u.center.subD ego) r = false) :
    drainD sid ego r t feed = t := by
  induction feed generalizing t with
  | nil => rfl
  | cons p rest ih =>
    simp only [drainD]
    rw [ingestOneD_rejected sid ego r t p (h p (List.mem_cons_self _ _))]
    exact ih t (fun u hu => h u (List.mem_cons_of_mem _ hu))

theorem find_drainD_untouched (sid : Int) (ego : Vec3) (r : ℚ) (t : Table)
    (feed : List Participant) (k : Int)
    (h : ∀ u ∈ feed, u.trackingID = k →
      u.trackingID = sid ∨ norm2_lt (u.center.subD ego) r = false) :
    (drainD sid ego r t feed).find k = t.find k := by
  induction feed generalizing t with
  | nil => rfl
  | cons p rest ih =>
    simp only [drainD]
    rw [ih _ (fun u hu => h u (List.mem_cons_of_mem _ hu)), find_ingestOneD]
    have hp := h p (List.mem_cons_self _ _)
    have : ¬ (p.trackingID = k ∧ p.trackingID ≠ sid ∧ norm2_lt (p.center.subD ego) r = true) := by
      rintro ⟨h1, h2, h3⟩
      rcases hp h1 with h4 | h4
      · exact h2 h4
      · rw [h3] at h4; exact Bool.noConfusion h4
    rw [if_neg this]

theorem find_drainD_last (sid : Int) (ego : Vec3) (r : ℚ) (t : Table)
    (pre post : List Participant) (u : Participant)
    (hself : u.trackingID ≠ sid) (hin : norm2_lt (u.center.subD ego) r = true)
    (hpost : ∀ v ∈ post, v.trackingID = u.trackingID →
      v.trackingID = sid ∨ norm2_lt (v.center.subD ego) r = false) :
    (drainD sid ego r t (pre ++ u :: post)).find u.trackingID = some u := by
  rw [drainD_append]
  simp only [drainD]
  rw [find_drainD_untouched sid ego r _ post u.trackingID hpost, find_ingestOneD,
    if_pos ⟨rfl, hself, hin⟩]

theorem collectD_fst (t_now age : ℚ) (t : Table) :
    (collectD t_now age t).1 = t.map (fun e => (e.1, restampD t_now age e.2)) := by
  induction t with
  | nil => rfl
  | cons e rest ih =>
    obtain ⟨k, p⟩ := e
    by_cases h : roundDouble (t_now - p.observationTime) < age
    · simp [collectD, restampD, h, ih]
    · simp [collectD, restampD, h, ih]

theorem collectD_snd (t_now age : ℚ) (t : Table) :
    (collectD t_now age t).2 =
      (t.filter (fun e => decide (roundDouble (t_now - e.2.observationTime) < age))).map
        (fun e => stamp e.2) := by
  induction t with
  | nil => rfl
  | cons e rest ih =>
    obtain ⟨k, p⟩ := e
    by_cases h : roundDouble (t_now - p.observationTime) < age
    · simp [collectD, h, ih]
    · simp [collectD, h, ih]

theorem writtenD_of_clock (m : ObjectDetectionModel) (w : Inputs) (t_now : ℚ)
    (hclock : w.timer = some t_now) :
    (runD m w).written =
      [((drainD m.simulationID_ ⟨w.egoX, w.egoY, 0⟩ w.objectDetectionRange
          m.latest_data_ w.feed).filter
        (fun e => decide (roundDouble (t_now - e.2.observationTime) < w.objectDiscardAge))).map
        (fun e => stamp e.2)] := by
  unfold runD
  rw [hclock]
  simp only [collectD_snd]

theorem tableD_of_clock (m : ObjectDetectionModel) (w : Inputs) (t_now : ℚ)
    (hclock : w.timer = some t_now) :
    (runD m w).model.latest_data_ =
      (drainD m.simulationID_ ⟨w.egoX, w.egoY, 0⟩ w.objectDetectionRange
          m.latest_data_ w.feed).map
        (fun e => (e.1, restampD t_now w.objectDiscardAge e.2)) := by
  unfold runD
  rw [hclock]
  simp only [collectD_fst]

theorem find_runD_of_clock (m : ObjectDetectionModel) (w : Inputs) (t_now : ℚ) (k : Int)
    (hclock : w.timer = some t_now) :
    (runD m w).model.latest_data_.find k =
      ((drainD m.simulationID_ ⟨w.egoX, w.egoY, 0⟩ w.objectDetectionRange
          m.latest_data_ w.feed).find k).map (restampD t_now w.objectDiscardAge) := by
  rw [tableD_of_clock m w t_now hclock, Table.find_map_snd]

theorem norm2_lt_iff_norm (v : Vec3) (r : ℚ) :
    norm2_lt v r = true ↔
      Real.sqrt (((v.x ^ 2 + v.y ^ 2 + v.z ^ 2 : ℚ) : ℝ)) < (r : ℝ) := by
  have h := norm2_lt_iff_sqrt v ⟨0, 0, 0⟩ r
  simp only [Vec3.sub, distLt, sub_zero] at h
  exact h

theorem norm2_lt_subD_iff (a b : Vec3) (r : ℚ) :
    norm2_lt (a.subD b) r = true ↔ distLtD a b r :=
  norm2_lt_iff_norm (a.subD b) r

theorem norm2_lt_subD_false_iff (a b : Vec3) (r : ℚ) :
    norm2_lt (a.subD b) r = false ↔ ¬ distLtD a b r := by
  rw [← norm2_lt_subD_iff]; simp

/-! ## The claims -/

/-- C1, as stated, fails: at time 1 with discard age 1, a record observed at time
`2 ^ (-60)` is in the table once the feed is drained, its age `1 - 2 ^ (-60)` is
below the discard age, and the set published is empty: the `double` nearest to
the age is 1, which is not below the discard age. -/
theorem fresh_by_exact_age_not_published :
    ageEdgeInputs.timer = some 1 ∧
      drainD 1 ⟨0, 0, 0⟩ 50 [] ageEdgeInputs.feed = [(9, ⟨9, ⟨3, 4, 0⟩, pow2 (-60), 10⟩)] ∧
      (1 : ℚ) - pow2 (-60) < ageEdgeInputs.objectDiscardAge ∧
      roundDouble (1 - pow2 (-60)) = 1 ∧
      (runD (ObjectDetectionModel.construct 1 ⟨0, 0, 0⟩) ageEdgeInputs).written = [[]] :=
  ⟨rfl, by decide!, by decide!, by decide!, by decide!⟩

/-- C1, amended: when the clock has data, `run` hands the writer one set, made of
the records of the table as it stands after the feed has been drained whose age,
the `double` value of `t_now - observationTime`, is strictly below the discard
age, each with certainty 100 and the identity, centre and observation time of the
stored record; a record whose age so computed equals the discard age is left
out, one whose age so computed is smaller is kept. -/
theorem runD_publishes_fresh_records (m : ObjectDetectionModel) (w : Inputs) (t_now : ℚ)
    (hclock : w.timer = some t_now) :
    let ingested := drainD m.simulationID_ ⟨w.egoX, w.egoY, 0⟩ w.objectDetectionRange
      m.latest_data_ w.feed
    let kept := ingested.filter
      (fun e => decide (roundDouble (t_now - e.2.observationTime) < w.objectDiscardAge))
    (runD m w).written =
        [kept.map (fun e => ⟨e.2.trackingID, e.2.center, e.2.observationTime, 100⟩)] ∧
      (∀ e ∈ ingested,
        roundDouble (t_now - e.2.observationTime) = w.objectDiscardAge → e ∉ kept) ∧
      (∀ e ∈ ingested,
        roundDouble (t_now - e.2.observationTime) < w.objectDiscardAge → e ∈ kept) := by
  intro ingested kept
  refine ⟨?_, ?_, ?_⟩
  · rw [writtenD_of_clock m w t_now hclock]
    rfl
  · intro e _ hage hmem
    have h := (List.mem_filter.mp hmem).2
    rw [decide_eq_true_iff, hage] at h
    exact lt_irrefl _ h
  · intro e he hage
    exact List.mem_filter.mpr ⟨he, decide_eq_true hage⟩

theorem runD_publishes_fresh_records_witness :
    sampleInputs.timer = some 5 ∧
      (runD sampleModel sampleInputs).written =
        [[⟨8, ⟨0, 20, 0⟩, 1, 100⟩, ⟨9, ⟨3, 4, 0⟩, 5, 100⟩]] :=
  ⟨rfl, (runD_publishes_fresh_records sampleModel sampleInputs 5 rfl).1.trans (by decide!)⟩

/-- C2, as stated, fails, in two ways.  Without clock data `run` returns at once:
a pending update of a new participant at distance 10, the range being 50, is not
added.  And with the clock running, range 1 and the ego at `(2 ^ (-60), 0)`, a
pending update of a new participant with centre `(1, 0, 0)`, at distance
`1 - 2 ^ (-60)` below the range, is not added: the `double` difference of the
positions is `(1, 0, 0)`, of norm 1. -/
theorem single_update_in_range_not_added :
    noClockInputs.timer = none ∧ distLt ⟨10, 0, 0⟩ ⟨0, 0, 0⟩ 50 ∧
      (runD (ObjectDetectionModel.construct 1 ⟨0, 0, 0⟩) noClockInputs).model.latest_data_.find 7
        = none ∧
      rangeEdgeInputs.timer = some 0 ∧ distLt ⟨1, 0, 0⟩ ⟨pow2 (-60), 0, 0⟩ 1 ∧
      Vec3.subD ⟨1, 0, 0⟩ ⟨pow2 (-60), 0, 0⟩ = ⟨1, 0, 0⟩ ∧
      (runD (ObjectDetectionModel.construct 1 ⟨0, 0, 0⟩) rangeEdgeInputs).model.latest_data_.find 7
        = none :=
  ⟨rfl, (norm2_lt_iff_sqrt _ _ _).mp (by decide!), by decide!,
    rfl, (norm2_lt_iff_sqrt _ _ _).mp (by decide!), by decide!, by decide!⟩

/-- C2, amended: with the clock running and one pending update whose identity is
not the ego's and not yet a key of the table, after `run` the table has that key
if and only if the Euclidean norm of the difference between the update's centre
and the ego reference `(x, y, 0)`, the difference taken in `double` component by
component, is strictly below the sensor range; when that norm equals the range
the key is absent. -/
theorem single_update_added_iff_in_rangeD (m : ObjectDetectionModel) (w : Inputs)
    (t_now : ℚ) (u : Participant) (hclock : w.timer = some t_now) (hfeed : w.feed = [u])
    (hself : u.trackingID ≠ m.simulationID_)
    (hnew : m.latest_data_.find u.trackingID = none) :
    (((runD m w).model.latest_data_.find u.trackingID).isSome = true ↔
        distLtD u.center ⟨w.egoX, w.egoY, 0⟩ w.objectDetectionRange) ∧
      (Real.sqrt ((((roundDouble (u.center.x - w.egoX)) ^ 2
          + (roundDouble (u.center.y - w.egoY)) ^ 2
          + (roundDouble (u.center.z - 0)) ^ 2 : ℚ) : ℝ)) = (w.objectDetectionRange : ℝ) →
        (runD m w).model.latest_data_.find u.trackingID = none) := by
  have key : ((runD m w).model.latest_data_.find u.trackingID).isSome = true ↔
      distLtD u.center ⟨w.egoX, w.egoY, 0⟩ w.objectDetectionRange := by
    rw [← norm2_lt_subD_iff, find_runD_of_clock m w t_now _ hclock]
    simp only [hfeed, drainD, find_ingestOneD, hnew]
    by_cases h : norm2_lt (u.center.subD ⟨w.egoX, w.egoY, 0⟩) w.objectDetectionRange = true
    · simp [h, hself]
    · simp [h]
  refine ⟨key, ?_⟩
  intro heq
  have hnot : ¬ distLtD u.center ⟨w.egoX, w.egoY, 0⟩ w.objectDetectionRange := by
    unfold distLtD
    rw [heq]
    exact lt_irrefl _
  have h := mt key.mp hnot
  cases hf : (runD m w).model.latest_data_.find u.trackingID with
  | none => rfl
  | some q => rw [hf] at h; exact absurd rfl h

theorem single_update_added_iff_in_rangeD_witness :
    sampleInputs.timer = some 5 ∧ sampleInputs.feed = [⟨9, ⟨3, 4, 0⟩, 5, 10⟩] ∧
      (9 : Int) ≠ sampleModel.simulationID_ ∧ sampleModel.latest_data_.find 9 = none ∧
      distLtD ⟨3, 4, 0⟩ ⟨0, 0, 0⟩ 50 ∧
      ((runD sampleModel sampleInputs).model.latest_data_.find 9).isSome = true :=
  have h := (single_update_added_iff_in_rangeD sampleModel sampleInputs 5
    ⟨9, ⟨3, 4, 0⟩, 5, 10⟩ rfl rfl (by decide) rfl).1
  have hin : distLtD ⟨3, 4, 0⟩ ⟨0, 0, 0⟩ 50 := (norm2_lt_subD_iff _ _ _).mp (by decide!)
  ⟨rfl, rfl, by decide, rfl, hin, h.mpr hin⟩

/-- C3: when the clock has no data, `run` changes nothing: the object after the
call is the object before it (table included), nothing is handed to the writer
and the feed is left as it was. -/
theorem run_without_clock_is_noop (m : ObjectDetectionModel) (w : Inputs)
    (hclock : w.timer = none) :
    (run m w).model = m ∧ (run m w).written = [] ∧ (run m w).feed = w.feed := by
  unfold run
  rw [hclock]
  exact ⟨rfl, rfl, rfl⟩

theorem run_without_clock_is_noop_witness :
    (run sampleModel ⟨none, 50, 5, 0, 0, [⟨9, ⟨3, 4, 0⟩, 5, 10⟩]⟩).model = sampleModel ∧
      (run sampleModel ⟨none, 50, 5, 0, 0, [⟨9, ⟨3, 4, 0⟩, 5, 10⟩]⟩).written = [] ∧
      (run sampleModel ⟨none, 50, 5, 0, 0, [⟨9, ⟨3, 4, 0⟩, 5, 10⟩]⟩).feed
        = [⟨9, ⟨3, 4, 0⟩, 5, 10⟩] :=
  run_without_clock_is_noop sampleModel ⟨none, 50, 5, 0, 0, [⟨9, ⟨3, 4, 0⟩, 5, 10⟩]⟩ rfl

/-- C4, as stated, fails: from the constructed object, a first cycle stores a
record of participant 7 too old to be published (its certainty stays 30); in a
second cycle with a larger discard age every pending update carries the ego's
identity, and yet the table after `run` differs from the table before. -/
theorem self_updates_table_changed :
    ReachableD (runD (ObjectDetectionModel.construct 1 ⟨0, 0, 0⟩) staleInputs).model ∧
      (∀ u ∈ selfInputs.feed, u.trackingID =
        (runD (ObjectDetectionModel.construct 1 ⟨0, 0, 0⟩) staleInputs).model.simulationID_) ∧
      (runD (ObjectDetectionModel.construct 1 ⟨0, 0, 0⟩) staleInputs).model.latest_data_
        = [(7, ⟨7, ⟨10, 0, 0⟩, 0, 30⟩)] ∧
      (runD (runD (ObjectDetectionModel.construct 1 ⟨0, 0, 0⟩) staleInputs).model
          selfInputs).model.latest_data_ = [(7, ⟨7, ⟨10, 0, 0⟩, 0, 100⟩)] ∧
      (runD (runD (ObjectDetectionModel.construct 1 ⟨0, 0, 0⟩) staleInputs).model
          selfInputs).model.latest_data_ ≠
        (runD (ObjectDetectionModel.construct 1 ⟨0, 0, 0⟩) staleInputs).model.latest_data_ :=
  ⟨ReachableD.step _ _ (ReachableD.init _ _), by decide!, by decide!, by decide!, by decide!⟩

/-- C4, amended: if every pending update carries the ego's identity, draining the
feed leaves the table as it was, and the table after `run` has the same keys in
the same order and, in every record, the same identity, centre and observation
time; the certainty of the records whose age, the `double` value of
`t_now - observationTime`, is below the discard age is 100, and the records whose
age so computed is not below it are unchanged in every field. -/
theorem self_updates_keep_table (m : ObjectDetectionModel) (w : Inputs)
    (hself : ∀ u ∈ w.feed, u.trackingID = m.simulationID_) :
    drainD m.simulationID_ ⟨w.egoX, w.egoY, 0⟩ w.objectDetectionRange m.latest_data_ w.feed
        = m.latest_data_ ∧
      (w.timer = none → (runD m w).model.latest_data_ = m.latest_data_) ∧
      (∀ t_now, w.timer = some t_now →
        (runD m w).model.latest_data_ = m.latest_data_.map (fun e =>
          (e.1, if roundDouble (t_now - e.2.observationTime) < w.objectDiscardAge
                then ⟨e.2.trackingID, e.2.center, e.2.observationTime, 100⟩ else e.2))) := by
  have hdrain : drainD m.simulationID_ ⟨w.egoX, w.egoY, 0⟩ w.objectDetectionRange
      m.latest_data_ w.feed = m.latest_data_ :=
    drainD_rejected _ _ _ _ _ (fun u hu => Or.inl (hself u hu))
  refine ⟨hdrain, ?_, ?_⟩
  · intro hclock
    unfold runD
    rw [hclock]
  · intro t_now hclock
    rw [tableD_of_clock m w t_now hclock, hdrain]
    rfl

theorem self_updates_keep_table_witness :
    (∀ u ∈ selfInputs.feed, u.trackingID = sampleModel.simulationID_) ∧
      (runD sampleModel selfInputs).model.latest_data_ =
        [(7, ⟨7, ⟨10, 0, 0⟩, 0, 100⟩), (8, ⟨8, ⟨0, 20, 0⟩, 1, 100⟩)] ∧
      (runD (runD (ObjectDetectionModel.construct 1 ⟨0, 0, 0⟩) ageEdgeInputs).model
          ⟨some 1, 50, 1, 0, 0, [⟨1, ⟨1, 0, 0⟩, 1, 50⟩]⟩).model.latest_data_ =
        [(9, ⟨9, ⟨3, 4, 0⟩, pow2 (-60), 10⟩)] :=
  ⟨by decide!,
    ((self_updates_keep_table sampleModel selfInputs (by decide!)).2.2 10 rfl).trans
      (by decide!),
    by decide!⟩

/-- C5, as stated, fails: with range 1 and the ego at `(2 ^ (-60), 0, 0)`, two
updates of participant 7, at `(1/2, 0, 0)` and then at `(1, 0, 0)`, are both at a
distance below the range, and the table after the feed is drained holds the
first, not the last: the `double` difference for the last is `(1, 0, 0)`, of norm
1, and the update is dropped. -/
theorem last_in_range_update_dropped :
    distLt ⟨1 / 2, 0, 0⟩ ⟨pow2 (-60), 0, 0⟩ 1 ∧ distLt ⟨1, 0, 0⟩ ⟨pow2 (-60), 0, 0⟩ 1 ∧
      rangeEdgeFeed = [⟨7, ⟨1 / 2, 0, 0⟩, 0, 30⟩, ⟨7, ⟨1, 0, 0⟩, 1, 40⟩] ∧
      drainD 1 ⟨pow2 (-60), 0, 0⟩ 1 [] rangeEdgeFeed = [(7, ⟨7, ⟨1 / 2, 0, 0⟩, 0, 30⟩)] :=
  ⟨(norm2_lt_iff_sqrt _ _ _).mp (by decide!), (norm2_lt_iff_sqrt _ _ _).mp (by decide!),
    rfl, by decide!⟩

/-- C5, amended: in a well-formed table, after draining a feed that holds, for an
identity `k` other than the ego's, an update that passes the range test of the
source (the Euclidean norm of the `double` difference between its centre and the
ego location is below the range), exactly one entry carries `k`, stored under the
key `k`, and it is the last update for `k` in feed order that passes that test. -/
theorem latest_write_winsD (sid : Int) (ego : Vec3) (r : ℚ) (t : Table)
    (feed : List Participant) (k : Int) (hok : TableOK t) (hk : k ≠ sid)
    (hex : ∃ v ∈ feed, v.trackingID = k ∧ distLtD v.center ego r) :
    ∃ u pre post, feed = pre ++ u :: post ∧ u.trackingID = k ∧ distLtD u.center ego r ∧
      (∀ v ∈ post, v.trackingID = k → ¬ distLtD v.center ego r) ∧
      (drainD sid ego r t feed).filter (fun e => decide (e.2.trackingID = k)) = [(k, u)] := by
  obtain ⟨u, pre, post, hl, ⟨hu, hin⟩, hpost⟩ :=
    exists_last_of_exists (fun v => v.trackingID = k ∧ distLtD v.center ego r) feed hex
  refine ⟨u, pre, post, hl, hu, hin, fun v hv hvk hd => hpost v hv ⟨hvk, hd⟩, ?_⟩
  apply Table.filter_trackingID_of_find _ _ _ (TableOK_drainD sid ego r t feed hok)
  rw [hl, ← hu]
  apply find_drainD_last
  · rw [hu]; exact hk
  · exact (norm2_lt_subD_iff _ _ _).mpr hin
  · intro v hv hvk
    right
    rw [norm2_lt_subD_false_iff]
    exact fun hd => hpost v hv ⟨hvk.trans hu, hd⟩

theorem latest_write_winsD_witness :
    TableOK [] ∧ (7 : Int) ≠ 1 ∧
      (∃ v ∈ sampleFeed, v.trackingID = 7 ∧ distLtD v.center ⟨0, 0, 0⟩ 50) ∧
      (∃ u pre post, sampleFeed = pre ++ u :: post ∧ u.trackingID = 7 ∧
        distLtD u.center ⟨0, 0, 0⟩ 50 ∧
        (∀ v ∈ post, v.trackingID = 7 → ¬ distLtD v.center ⟨0, 0, 0⟩ 50) ∧
        (drainD 1 ⟨0, 0, 0⟩ 50 [] sampleFeed).filter (fun e => decide (e.2.trackingID = 7))
          = [(7, u)]) ∧
      drainD 1 ⟨0, 0, 0⟩ 50 [] sampleFeed = [(7, ⟨7, ⟨20, 0, 0⟩, 1, 40⟩)] :=
  have hex : ∃ v ∈ sampleFeed, v.trackingID = 7 ∧ distLtD v.center ⟨0, 0, 0⟩ 50 :=
    ⟨⟨7, ⟨10, 0, 0⟩, 0, 30⟩, by decide!, rfl, (norm2_lt_subD_iff _ _ _).mp (by decide!)⟩
  ⟨TableOK_nil, by decide, hex,
    latest_write_winsD 1 ⟨0, 0, 0⟩ 50 [] sampleFeed 7 TableOK_nil (by decide) hex,
    by decide!⟩

/-- C8: in every state reachable from the constructed object by calls of `run`,
every stored record is stored under its own identity as key, keys are distinct,
and so no two entries of the table carry the same identity. -/
theorem one_record_per_trackingID (m : ObjectDetectionModel) (h : Reachable m) :
    (∀ e ∈ m.latest_data_, e.2.trackingID = e.1) ∧
      (m.latest_data_.map Prod.fst).Nodup ∧
      (m.latest_data_.map (fun e => e.2.trackingID)).Nodup := by
  obtain ⟨hnd, hid⟩ := TableOK_of_reachable m h
  refine ⟨hid, hnd, ?_⟩
  have : m.latest_data_.map (fun e => e.2.trackingID) = m.latest_data_.map Prod.fst :=
    List.map_congr_left (fun e he => hid e he)
  rw [this]
  exact hnd

theorem one_record_per_trackingID_witness :
    Reachable (run (ObjectDetectionModel.construct 1 ⟨0, 0, 0⟩)
        ⟨some 0, 50, 5, 0, 0, sampleFeed⟩).model ∧
      (run (ObjectDetectionModel.construct 1 ⟨0, 0, 0⟩)
        ⟨some 0, 50, 5, 0, 0, sampleFeed⟩).model.latest_data_
          = [(7, ⟨7, ⟨20, 0, 0⟩, 1, 100⟩)] ∧
      ((run (ObjectDetectionModel.construct 1 ⟨0, 0, 0⟩)
        ⟨some 0, 50, 5, 0, 0, sampleFeed⟩).model.latest_data_.map
          (fun e => e.2.trackingID)).Nodup :=
  have hr : Reachable (run (ObjectDetectionModel.construct 1 ⟨0, 0, 0⟩)
      ⟨some 0, 50, 5, 0, 0, sampleFeed⟩).model := Reachable.step _ _ (Reachable.init _ _)
  ⟨hr, by decide!, (one_record_per_trackingID _ hr).2.2⟩

/-- C9: the scenario of the specification as a trace from the constructed object,
the ego's identity not being 7, ego at the origin, range 50, discard age 5.  At
time 0 an update of participant 7 at (10,0,0) observed at time 0 is pending: the
set published is that one record with certainty 100.  At time 4, no update: the
same set.  At time 6, no update: the empty set, the record still in the table.
At time 6 again, with an update of participant 7 at (500,0,0) pending: the table
is unchanged, the record of 7 still has centre (10,0,0) and observation time 0,
and the set published is empty. -/
theorem scenario_trace (sid : Int) (ego0 : Vec3) (c c' : ℚ) (hsid : sid ≠ 7) :
    let rec7 : Participant := ⟨7, ⟨10, 0, 0⟩, 0, 100⟩
    let o1 := run (ObjectDetectionModel.construct sid ego0)
      ⟨some 0, 50, 5, 0, 0, [⟨7, ⟨10, 0, 0⟩, 0, c⟩]⟩
    let o2 := run o1.model ⟨some 4, 50, 5, 0, 0, []⟩
    let o3 := run o2.model ⟨some 6, 50, 5, 0, 0, []⟩
    let o4 := run o3.model ⟨some 6, 50, 5, 0, 0, [⟨7, ⟨500, 0, 0⟩, 6, c'⟩]⟩
    o1.written = [[rec7]] ∧ o2.written = [[rec7]] ∧
      o3.written = [[]] ∧ o3.model.latest_data_ = [(7, rec7)] ∧
      o4.model.latest_data_ = o3.model.latest_data_ ∧
      o4.model.latest_data_.find 7 = some rec7 ∧ o4.written = [[]] := by
  intro rec7 o1 o2 o3 o4
  have hsid' : ¬ (7 : Int) = sid := fun h => hsid h.symm
  have h1 : o1 = ⟨⟨sid, ⟨0, 0, 0⟩, [(7, rec7)]⟩, [], [[rec7]]⟩ := by
    simp only [o1, rec7, run, ObjectDetectionModel.construct, drain, ingestOne, norm2_lt,
      Vec3.sub, Vec3.normSq, Table.emplace, Table.find, Table.assign, collect, stamp]
    norm_num [hsid', Table.assign, collect, stamp]
  have h2 : o2 = ⟨⟨sid, ⟨0, 0, 0⟩, [(7, rec7)]⟩, [], [[rec7]]⟩ := by
    simp only [o2, h1, rec7, run, drain, collect, stamp]
    norm_num
  have h3 : o3 = ⟨⟨sid, ⟨0, 0, 0⟩, [(7, rec7)]⟩, [], [[]]⟩ := by
    simp only [o3, h2, rec7, run, drain, collect, stamp]
    norm_num
  have h4 : o4 = ⟨⟨sid, ⟨0, 0, 0⟩, [(7, rec7)]⟩, [], [[]]⟩ := by
    simp only [o4, h3, rec7, run, drain, ingestOne, norm2_lt,
      Vec3.sub, Vec3.normSq, collect, stamp]
    norm_num [collect, stamp]
  rw [h1, h2, h3, h4]
  simp [Table.find]

theorem scenario_trace_witness :
    (1 : Int) ≠ 7 ∧
      (run (ObjectDetectionModel.construct 1 ⟨0, 0, 0⟩)
        ⟨some 0, 50, 5, 0, 0, [⟨7, ⟨10, 0, 0⟩, 0, 30⟩]⟩).written
          = [[⟨7, ⟨10, 0, 0⟩, 0, 100⟩]] :=
  ⟨by decide, (scenario_trace 1 ⟨0, 0, 0⟩ 30 60 (by decide)).1⟩

/-- C10: in every state reachable from the constructed object by calls of `run`,
no entry of the table carries the ego's identity, as key or in its record, and
whatever the collaborators hold at the next call of `run`, the identity of the
object is unchanged by it and no record of a set it publishes carries that
identity. -/
theorem ego_never_detected (m : ObjectDetectionModel) (h : Reachable m) :
    (∀ e ∈ m.latest_data_, e.1 ≠ m.simulationID_ ∧ e.2.trackingID ≠ m.simulationID_) ∧
      (∀ w, (run m w).model.simulationID_ = m.simulationID_ ∧
        ∀ s ∈ (run m w).written, ∀ q ∈ s, q.trackingID ≠ m.simulationID_) := by
  have hinv : ∀ m, Reachable m → ∀ e ∈ m.latest_data_, e.2.trackingID ≠ m.simulationID_ := by
    intro m hm
    induction hm with
    | init sid ego0 => intro e he; simp [ObjectDetectionModel.construct] at he
    | step m w _ ih =>
      intro e he
      rw [run_simulationID]
      unfold run at he
      cases hw : w.timer with
      | none => rw [hw] at he; exact ih e he
      | some t_now =>
        rw [hw] at he
        simp only [collect_fst] at he
        obtain ⟨e0, he0, rfl⟩ := List.mem_map.mp he
        simp only [restamp_trackingID]
        rcases mem_drain _ _ _ _ _ _ he0 with h1 | h1
        · exact ih e0 h1
        · rw [h1.1]; exact h1.2
  have hok := TableOK_of_reachable m h
  refine ⟨fun e he => ⟨?_, hinv m h e he⟩, fun w => ⟨run_simulationID m w, ?_⟩⟩
  · rw [← hok.2 e he]; exact hinv m h e he
  · intro s hs q hq
    unfold run at hs
    cases hw : w.timer with
    | none => rw [hw] at hs; simp at hs
    | some t_now =>
      rw [hw] at hs
      simp only [List.mem_singleton] at hs
      subst hs
      rw [collect_snd] at hq
      obtain ⟨e, he, rfl⟩ := List.mem_map.mp hq
      have hmem := (List.mem_filter.mp he).1
      show e.2.trackingID ≠ m.simulationID_
      rcases mem_drain _ _ _ _ _ _ hmem with h1 | h1
      · exact hinv m h e h1
      · rw [h1.1]; exact h1.2

theorem ego_never_detected_witness :
    Reachable (run (ObjectDetectionModel.construct 7 ⟨0, 0, 0⟩)
        ⟨some 0, 50, 5, 0, 0, sampleFeed⟩).model ∧
      (run (ObjectDetectionModel.construct 7 ⟨0, 0, 0⟩)
        ⟨some 0, 50, 5, 0, 0, sampleFeed⟩).model.latest_data_ = [] ∧
      (∀ s ∈ (run (run (ObjectDetectionModel.construct 7 ⟨0, 0, 0⟩)
          ⟨some 0, 50, 5, 0, 0, sampleFeed⟩).model ⟨some 1, 50, 5, 0, 0, sampleFeed⟩).written,
        ∀ q ∈ s, q.trackingID ≠ 7) :=
  have hr : Reachable (run (ObjectDetectionModel.construct 7 ⟨0, 0, 0⟩)
      ⟨some 0, 50, 5, 0, 0, sampleFeed⟩).model := Reachable.step _ _ (Reachable.init _ _)
  ⟨hr, by decide!, ((ego_never_detected _ hr).2 ⟨some 1, 50, 5, 0, 0, sampleFeed⟩).2⟩

/-- C12: two calls of `run` on objects with the same ego identity, under the
same clock, parameters and ego position, whose tables agree entry by entry in
key, identity, centre and observation time, and whose feeds agree update by
update in identity, centre and observation time (so that only certainties may
differ), hand the writer the same sets, record for record. -/
theorem certainty_does_not_influence (m₁ m₂ : ObjectDetectionModel) (w₁ w₂ : Inputs)
    (hsid : m₁.simulationID_ = m₂.simulationID_)
    (htab : List.Forall₂ (fun e f => e.1 = f.1 ∧ sameButCertainty e.2 f.2)
      m₁.latest_data_ m₂.latest_data_)
    (hfeed : List.Forall₂ sameButCertainty w₁.feed w₂.feed)
    (htime : w₁.timer = w₂.timer)
    (hrange : w₁.objectDetectionRange = w₂.objectDetectionRange)
    (hage : w₁.objectDiscardAge = w₂.objectDiscardAge)
    (hx : w₁.egoX = w₂.egoX) (hy : w₁.egoY = w₂.egoY) :
    (run m₁ w₁).written = (run m₂ w₂).written := by
  cases hw : w₂.timer with
  | none =>
    rw [hw] at htime
    unfold run
    rw [htime, hw]
  | some t_now =>
    rw [hw] at htime
    rw [written_of_clock m₁ w₁ t_now htime, written_of_clock m₂ w₂ t_now hw,
      snapshot_of_stamped, snapshot_of_stamped,
      drain_map_snd stamp (fun _ => rfl) (fun _ => rfl),
      drain_map_snd stamp (fun _ => rfl) (fun _ => rfl),
      table_stamp_eq_of_same _ _ htab, map_stamp_eq_of_same _ _ hfeed,
      hsid, hrange, hage, hx, hy]

theorem certainty_does_not_influence_witness :
    List.Forall₂ (fun e f => e.1 = f.1 ∧ sameButCertainty e.2 f.2)
        sampleModel.latest_data_ sampleModelB.latest_data_ ∧
      List.Forall₂ sameButCertainty sampleInputs.feed sampleInputsB.feed ∧
      sampleModel.latest_data_ ≠ sampleModelB.latest_data_ ∧
      sampleInputs.feed ≠ sampleInputsB.feed ∧
      (run sampleModel sampleInputs).written = (run sampleModelB sampleInputsB).written :=
  have htab : List.Forall₂ (fun e f => e.1 = f.1 ∧ sameButCertainty e.2 f.2)
      sampleModel.latest_data_ sampleModelB.latest_data_ :=
    List.Forall₂.cons ⟨rfl, rfl, rfl, rfl⟩ (List.Forall₂.cons ⟨rfl, rfl, rfl, rfl⟩ List.Forall₂.nil)
  have hfeed : List.Forall₂ sameButCertainty sampleInputs.feed sampleInputsB.feed :=
    List.Forall₂.cons ⟨rfl, rfl, rfl⟩ List.Forall₂.nil
  ⟨htab, hfeed, by decide!, by decide!,
    certainty_does_not_influence sampleModel sampleModelB sampleInputs sampleInputsB
      rfl htab hfeed rfl rfl rfl rfl rfl⟩

/-- C13: range is tested when an update is taken from the feed, against the ego
reference of that cycle, and not when the set is collected.  There are two
successive calls of `run` from a reachable object, the second with the clock
running and no pending update, such that a participant is in range of the ego
in the first, and the set published by the second holds its record, of age below
the discard age, with the centre at a distance from the second ego reference
that is at least the sensor range. -/
theorem range_checked_only_at_ingestion :
    ∃ (m : ObjectDetectionModel) (w₁ w₂ : Inputs) (t₂ : ℚ) (q : Participant),
      Reachable m ∧ w₂.timer = some t₂ ∧ w₂.feed = [] ∧
      (∃ u ∈ w₁.feed, u.trackingID = q.trackingID ∧ u.center = q.center ∧
        distLt u.center ⟨w₁.egoX, w₁.egoY, 0⟩ w₁.objectDetectionRange) ∧
      t₂ - q.observationTime < w₂.objectDiscardAge ∧
      (run (run m w₁).model w₂).written = [[q]] ∧
      (w₂.objectDetectionRange : ℝ) ≤
        Real.sqrt ((((q.center.x - w₂.egoX) ^ 2 + (q.center.y - w₂.egoY) ^ 2
          + (q.center.z - 0) ^ 2 : ℚ) : ℝ)) := by
  refine ⟨ObjectDetectionModel.construct 1 ⟨0, 0, 0⟩, nearInputs, movedInputs, 1,
    ⟨7, ⟨10, 0, 0⟩, 0, 100⟩, Reachable.init _ _, rfl, rfl, ?_, by decide!, by decide!, ?_⟩
  · exact ⟨⟨7, ⟨10, 0, 0⟩, 0, 30⟩, by decide!, rfl, rfl,
      (norm2_lt_iff_sqrt _ _ _).mp (by decide!)⟩
  · exact not_lt.mp ((norm2_lt_false_iff ⟨10, 0, 0⟩ ⟨1000, 0, 0⟩ 50).mp (by decide!))

/-- C14, as stated, fails: after `run` at time 1 with discard age 1 on the
constructed object, the table holds the record of participant 9 observed at time
`2 ^ (-60)`; its age `1 - 2 ^ (-60)` is below the discard age and its certainty in
the table is 10, not 100. -/
theorem fresh_by_exact_age_not_stamped :
    ageEdgeInputs.timer = some 1 ∧
      (runD (ObjectDetectionModel.construct 1 ⟨0, 0, 0⟩) ageEdgeInputs).model.latest_data_
        = [(9, ⟨9, ⟨3, 4, 0⟩, pow2 (-60), 10⟩)] ∧
      (1 : ℚ) - pow2 (-60) < ageEdgeInputs.objectDiscardAge ∧ (10 : ℚ) ≠ 100 :=
  ⟨rfl, by decide!, by decide!, by decide!⟩

/-- C14, amended: with the clock running, `run` writes the certainty into the
table: every entry of the table after the call whose age, the `double` value of
`t_now - observationTime`, is below the discard age has certainty 100 there; and
an entry for whose key no pending update passes the identity and range tests of
the source is found after the call under the same key with the same identity,
centre and observation time, its certainty being 100 if its age so computed is
below the discard age and what it was otherwise. -/
theorem runD_stamps_table (m : ObjectDetectionModel) (w : Inputs) (t_now : ℚ)
    (hclock : w.timer = some t_now) :
    (∀ e ∈ (runD m w).model.latest_data_,
        roundDouble (t_now - e.2.observationTime) < w.objectDiscardAge →
          e.2.existance_certainty_ = 100) ∧
      (∀ k p, m.latest_data_.find k = some p →
        (∀ u ∈ w.feed, u.trackingID = k → u.trackingID = m.simulationID_ ∨
          ¬ distLtD u.center ⟨w.egoX, w.egoY, 0⟩ w.objectDetectionRange) →
        (runD m w).model.latest_data_.find k =
          some ⟨p.trackingID, p.center, p.observationTime,
            if roundDouble (t_now - p.observationTime) < w.objectDiscardAge then 100
            else p.existance_certainty_⟩) := by
  refine ⟨?_, ?_⟩
  · intro e he hage
    rw [tableD_of_clock m w t_now hclock] at he
    obtain ⟨e0, _, rfl⟩ := List.mem_map.mp he
    have hage0 : roundDouble (t_now - e0.2.observationTime) < w.objectDiscardAge := by
      unfold restampD stamp at hage
      split at hage <;> exact hage
    simp [restampD, stamp, hage0]
  · intro k p hfind hrej
    rw [find_runD_of_clock m w t_now k hclock,
      find_drainD_untouched _ _ _ _ _ _ (fun u hu hk => (hrej u hu hk).imp id
        (fun h => (norm2_lt_subD_false_iff _ _ _).mpr h)), hfind]
    by_cases hage : roundDouble (t_now - p.observationTime) < w.objectDiscardAge
    · simp [restampD, stamp, hage]
    · simp [restampD, hage]

theorem runD_stamps_table_witness :
    sampleInputs.timer = some 5 ∧
      sampleModel.latest_data_.find 8 = some ⟨8, ⟨0, 20, 0⟩, 1, 40⟩ ∧
      (runD sampleModel sampleInputs).model.latest_data_.find 8
        = some ⟨8, ⟨0, 20, 0⟩, 1, 100⟩ :=
  have hrej : ∀ u ∈ sampleInputs.feed, u.trackingID = 8 →
      u.trackingID = sampleModel.simulationID_ ∨
        ¬ distLtD u.center ⟨sampleInputs.egoX, sampleInputs.egoY, 0⟩
          sampleInputs.objectDetectionRange := by
    intro u hu hid
    rw [List.mem_singleton.mp hu] at hid
    exact absurd hid (by decide)
  ⟨rfl, rfl,
    ((runD_stamps_table sampleModel sampleInputs 5 rfl).2 8 ⟨8, ⟨0, 20, 0⟩, 1, 40⟩ rfl hrej).trans
      (by decide!)⟩

/-- C15: on a table with distinct keys, calling `run` a second time with the
collaborators as they were at the first call (same clock, parameters and ego
position, the same updates pending again) leaves the object as the first call
left it, the table included, and publishes the sets the first call published. -/
theorem run_idempotent (m : ObjectDetectionModel) (w : Inputs)
    (hnd : (m.latest_data_.map Prod.fst).Nodup) :
    (run (run m w).model w).model = (run m w).model ∧
      (run (run m w).model w).written = (run m w).written := by
  cases hw : w.timer with
  | none =>
    have h1 : run m w = ⟨m, w.feed, []⟩ := by unfold run; rw [hw]
    rw [h1]
    exact ⟨by unfold run; rw [hw], by unfold run; rw [hw]⟩
  | some t_now =>
    have hsid := run_simulationID m w
    have hT1 := table_of_clock m w t_now hw
    have hT2 := table_of_clock (run m w).model w t_now hw
    rw [hsid] at hT2
    have hego : ∀ m', (run m' w).model.ego_location_ = ⟨w.egoX, w.egoY, 0⟩ := by
      intro m'; unfold run; rw [hw]
    -- the drained tables of the two calls
    have hD_nd := keysNodup_drain m.simulationID_ ⟨w.egoX, w.egoY, 0⟩
      w.objectDetectionRange m.latest_data_ w.feed hnd
    have hkeys1 : (run m w).model.latest_data_.map Prod.fst =
        (drain m.simulationID_ ⟨w.egoX, w.egoY, 0⟩ w.objectDetectionRange
          m.latest_data_ w.feed).map Prod.fst := by
      rw [hT1, List.map_map]; rfl
    have hkeysD2 : (drain m.simulationID_ ⟨w.egoX, w.egoY, 0⟩ w.objectDetectionRange
        (run m w).model.latest_data_ w.feed).map Prod.fst =
        (run m w).model.latest_data_.map Prod.fst := by
      apply keys_drain_of_present
      intro u hu h1 h2
      rw [hkeys1]
      exact mem_keys_drain_of_accepted _ _ _ _ _ u hu h1 h2
    have htab : (run (run m w).model w).model.latest_data_ = (run m w).model.latest_data_ := by
      apply Table.ext_of_find
      · rw [hT2, List.map_map]
        exact hkeysD2
      · rw [hT2, List.map_map]
        show ((drain m.simulationID_ ⟨w.egoX, w.egoY, 0⟩ w.objectDetectionRange
          (run m w).model.latest_data_ w.feed).map Prod.fst).Nodup
        rw [hkeysD2, hkeys1]
        exact hD_nd
      · intro k
        rw [hT2, Table.find_map_snd]
        by_cases hex : ∃ v ∈ w.feed, v.trackingID = k ∧ v.trackingID ≠ m.simulationID_ ∧
            norm2_lt (v.center.sub ⟨w.egoX, w.egoY, 0⟩) w.objectDetectionRange = true
        · obtain ⟨u, pre, post, hl, ⟨hu, hself, hin⟩, hpost⟩ := exists_last_of_exists
            (fun v => v.trackingID = k ∧ v.trackingID ≠ m.simulationID_ ∧
              norm2_lt (v.center.sub ⟨w.egoX, w.egoY, 0⟩) w.objectDetectionRange = true)
            w.feed hex
          have hpost' : ∀ v ∈ post, v.trackingID = u.trackingID →
              v.trackingID = m.simulationID_ ∨
                norm2_lt (v.center.sub ⟨w.egoX, w.egoY, 0⟩) w.objectDetectionRange = false := by
            intro v hv hvk
            by_cases hs : v.trackingID = m.simulationID_
            · exact Or.inl hs
            · right
              cases hb : norm2_lt (v.center.sub ⟨w.egoX, w.egoY, 0⟩) w.objectDetectionRange with
              | false => rfl
              | true => exact absurd ⟨hvk.trans hu, hs, hb⟩ (hpost v hv)
          have e2 := find_drain_last m.simulationID_ ⟨w.egoX, w.egoY, 0⟩
            w.objectDetectionRange (run m w).model.latest_data_ pre post u hself hin hpost'
          have e1 := find_drain_last m.simulationID_ ⟨w.egoX, w.egoY, 0⟩
            w.objectDetectionRange m.latest_data_ pre post u hself hin hpost'
          rw [← hl, hu] at e1 e2
          rw [e2, hT1, Table.find_map_snd, e1]
        · have hnone : ∀ u ∈ w.feed, u.trackingID = k → u.trackingID = m.simulationID_ ∨
              norm2_lt (u.center.sub ⟨w.egoX, w.egoY, 0⟩) w.objectDetectionRange = false := by
            intro u hu huk
            by_cases hs : u.trackingID = m.simulationID_
            · exact Or.inl hs
            · right
              cases hb : norm2_lt (u.center.sub ⟨w.egoX, w.egoY, 0⟩) w.objectDetectionRange with
              | false => rfl
              | true => exact absurd ⟨u, hu, huk, hs, hb⟩ hex
          rw [find_drain_untouched _ _ _ _ _ _ hnone]
          cases hf : (run m w).model.latest_data_.find k with
          | none => rfl
          | some p =>
            rw [hT1, Table.find_map_snd] at hf
            cases hd : (drain m.simulationID_ ⟨w.egoX, w.egoY, 0⟩ w.objectDetectionRange
              m.latest_data_ w.feed).find k with
            | none => rw [hd] at hf; exact absurd hf (by simp)
            | some p0 =>
              rw [hd] at hf
              simp only [Option.map_some', Option.some.injEq] at hf
              rw [← hf, Option.map_some', restamp_restamp]
    refine ⟨?_, ?_⟩
    · have h3 : ∀ a b : ObjectDetectionModel, a.simulationID_ = b.simulationID_ →
          a.ego_location_ = b.ego_location_ → a.latest_data_ = b.latest_data_ → a = b := by
        intro a b h1 h2 h3
        cases a; cases b
        simp only at h1 h2 h3
        rw [h1, h2, h3]
      exact h3 _ _ (run_simulationID _ w) ((hego _).trans (hego _).symm) htab
    · rw [written_of_clock m w t_now hw, written_of_clock (run m w).model w t_now hw,
        snapshot_of_restamped, snapshot_of_restamped, hsid, ← hT1, ← hT2, htab]

theorem run_idempotent_witness :
    (sampleModel.latest_data_.map Prod.fst).Nodup ∧
      (run (run sampleModel sampleInputs).model sampleInputs).model
        = (run sampleModel sampleInputs).model ∧
      (run (run sampleModel sampleInputs).model sampleInputs).written
        = [[⟨8, ⟨0, 20, 0⟩, 1, 100⟩, ⟨9, ⟨3, 4, 0⟩, 5, 100⟩]] :=
  have h := run_idempotent sampleModel sampleInputs (by decide)
  ⟨by decide, h.1, h.2.trans (by decide!)⟩

/-- C16: on a table with distinct keys, two feeds with, for every identity, the
same updates of that identity in the same order (so that one feed is the other
with updates of different participants interleaved otherwise) give, all else
being equal, the same stored record under every key after `run` and published
sets with the same records. -/
theorem run_independent_of_interleaving (m : ObjectDetectionModel) (w : Inputs)
    (feed' : List Participant) (hnd : (m.latest_data_.map Prod.fst).Nodup)
    (hperm : ∀ k : Int, w.feed.filter (fun u => decide (u.trackingID = k)) =
      feed'.filter (fun u => decide (u.trackingID = k))) :
    (∀ k, (run m w).model.latest_data_.find k =
        (run m { w with feed := feed' }).model.latest_data_.find k) ∧
      List.Forall₂ (fun s s' => ∀ q, q ∈ s ↔ q ∈ s')
        (run m w).written (run m { w with feed := feed' }).written := by
  have key : ∀ w' : Inputs,
      (∀ k : Int, w.feed.filter (fun u => decide (u.trackingID = k)) =
        w'.feed.filter (fun u => decide (u.trackingID = k))) →
      w'.timer = w.timer → w'.objectDetectionRange = w.objectDetectionRange →
      w'.objectDiscardAge = w.objectDiscardAge → w'.egoX = w.egoX → w'.egoY = w.egoY →
      (∀ k, (run m w).model.latest_data_.find k = (run m w').model.latest_data_.find k) ∧
        List.Forall₂ (fun s s' => ∀ q, q ∈ s ↔ q ∈ s')
          (run m w).written (run m w').written := by
    intro w' hperm htime hrange hage hx hy
    cases hw : w.timer with
    | none =>
      have h1 : (run m w) = ⟨m, w.feed, []⟩ := by unfold run; rw [hw]
      have h2 : (run m w') = ⟨m, w'.feed, []⟩ := by
        unfold run; rw [htime, hw]
      rw [h1, h2]
      exact ⟨fun _ => rfl, List.Forall₂.nil⟩
    | some t_now =>
      have hw' : w'.timer = some t_now := htime.trans hw
      have hfind : ∀ k, (drain m.simulationID_ ⟨w.egoX, w.egoY, 0⟩ w.objectDetectionRange
          m.latest_data_ w.feed).find k =
          (drain m.simulationID_ ⟨w.egoX, w.egoY, 0⟩ w.objectDetectionRange
          m.latest_data_ w'.feed).find k := by
        intro k
        rw [find_drain_filter _ _ _ _ w.feed, find_drain_filter _ _ _ _ w'.feed, hperm k]
      have hnd1 := keysNodup_drain m.simulationID_ ⟨w.egoX, w.egoY, 0⟩
        w.objectDetectionRange m.latest_data_ w.feed hnd
      have hnd2 := keysNodup_drain m.simulationID_ ⟨w.egoX, w.egoY, 0⟩
        w.objectDetectionRange m.latest_data_ w'.feed hnd
      refine ⟨?_, ?_⟩
      · intro k
        rw [find_run_of_clock m w t_now k hw, find_run_of_clock m w' t_now k hw',
          hrange, hage, hx, hy]
        exact congrArg _ (hfind k)
      · rw [written_of_clock m w t_now hw, written_of_clock m w' t_now hw',
          hrange, hage, hx, hy]
        refine List.Forall₂.cons ?_ List.Forall₂.nil
        intro q
        simp only [List.mem_map, List.mem_filter]
        constructor
        · rintro ⟨e, ⟨he, hfresh⟩, rfl⟩
          refine ⟨e, ⟨?_, hfresh⟩, rfl⟩
          rw [mem_iff_find _ hnd1, hfind] at he
          exact (mem_iff_find _ hnd2 e).mpr he
        · rintro ⟨e, ⟨he, hfresh⟩, rfl⟩
          refine ⟨e, ⟨?_, hfresh⟩, rfl⟩
          rw [mem_iff_find _ hnd2, ← hfind] at he
          exact (mem_iff_find _ hnd1 e).mpr he
  exact key { w with feed := feed' } hperm rfl rfl rfl rfl rfl

theorem run_independent_of_interleaving_witness :
    (sampleModel.latest_data_.map Prod.fst).Nodup ∧ feedA ≠ feedB ∧
      (∀ k : Int, feedA.filter (fun u => decide (u.trackingID = k)) =
        feedB.filter (fun u => decide (u.trackingID = k))) ∧
      (∀ k, (run sampleModel ⟨some 5, 50, 5, 0, 0, feedA⟩).model.latest_data_.find k =
        (run sampleModel ⟨some 5, 50, 5, 0, 0, feedB⟩).model.latest_data_.find k) :=
  have hperm : ∀ k : Int, feedA.filter (fun u => decide (u.trackingID = k)) =
      feedB.filter (fun u => decide (u.trackingID = k)) := by
    intro k
    by_cases h7 : (7 : Int) = k
    · subst h7; decide
    · by_cases h8 : (8 : Int) = k
      · subst h8; decide
      · simp [feedA, feedB, List.filter_cons, h7, h8]
  ⟨by decide, by decide!, hperm,
    (run_independent_of_interleaving sampleModel ⟨some 5, 50, 5, 0, 0, feedA⟩ feedB
      (by decide) hperm).1⟩

/-- C17: in every state reachable from the constructed object by calls of `run`,
whatever the collaborators hold at the next call, each set it publishes has at
most one record per identity, and no more records than the table has entries
once the feed is drained, which is the number of entries of the table after
the call. -/
theorem snapshot_one_record_per_trackingID (m : ObjectDetectionModel) (h : Reachable m)
    (w : Inputs) :
    ∀ s ∈ (run m w).written,
      (s.map (fun q => q.trackingID)).Nodup ∧
        s.length ≤ (drain m.simulationID_ ⟨w.egoX, w.egoY, 0⟩ w.objectDetectionRange
          m.latest_data_ w.feed).length ∧
        s.length ≤ (run m w).model.latest_data_.length := by
  intro s hs
  cases hw : w.timer with
  | none =>
    unfold run at hs
    rw [hw] at hs
    simp at hs
  | some t_now =>
    rw [written_of_clock m w t_now hw, List.mem_singleton] at hs
    rw [table_of_clock m w t_now hw]
    subst hs
    have hok := TableOK_drain m.simulationID_ ⟨w.egoX, w.egoY, 0⟩ w.objectDetectionRange
      m.latest_data_ w.feed (TableOK_of_reachable m h)
    refine ⟨?_, ?_, ?_⟩
    · rw [List.map_map]
      have hsub := (List.filter_sublist
        (drain m.simulationID_ ⟨w.egoX, w.egoY, 0⟩ w.objectDetectionRange
          m.latest_data_ w.feed)
        (p := fun e => decide (t_now - e.2.observationTime < w.objectDiscardAge))).map
        ((fun q => q.trackingID) ∘ fun e => stamp e.2)
      refine List.Nodup.sublist hsub ?_
      have : (drain m.simulationID_ ⟨w.egoX, w.egoY, 0⟩ w.objectDetectionRange
          m.latest_data_ w.feed).map ((fun q => q.trackingID) ∘ fun e => stamp e.2)
          = (drain m.simulationID_ ⟨w.egoX, w.egoY, 0⟩ w.objectDetectionRange
          m.latest_data_ w.feed).map Prod.fst :=
        List.map_congr_left (fun e he => hok.2 e he)
      rw [this]
      exact hok.1
    · rw [List.length_map]
      exact List.length_filter_le _ _
    · rw [List.length_map, List.length_map]
      exact List.length_filter_le _ _

theorem snapshot_one_record_per_trackingID_witness :
    Reachable (run (ObjectDetectionModel.construct 1 ⟨0, 0, 0⟩) nearInputs).model ∧
      (run (run (ObjectDetectionModel.construct 1 ⟨0, 0, 0⟩) nearInputs).model
        ⟨some 4, 50, 5, 0, 0, [⟨9, ⟨3, 4, 0⟩, 4, 10⟩]⟩).written
          = [[⟨7, ⟨10, 0, 0⟩, 0, 100⟩, ⟨9, ⟨3, 4, 0⟩, 4, 100⟩]] ∧
      (∀ s ∈ (run (run (ObjectDetectionModel.construct 1 ⟨0, 0, 0⟩) nearInputs).model
          ⟨some 4, 50, 5, 0, 0, [⟨9, ⟨3, 4, 0⟩, 4, 10⟩]⟩).written,
        (s.map (fun q => q.trackingID)).Nodup) :=
  have hr : Reachable (run (ObjectDetectionModel.construct 1 ⟨0, 0, 0⟩) nearInputs).model :=
    Reachable.step _ _ (Reachable.init _ _)
  ⟨hr, by decide!,
    fun s hs => (snapshot_one_record_per_trackingID _ hr
      ⟨some 4, 50, 5, 0, 0, [⟨9, ⟨3, 4, 0⟩, 4, 10⟩]⟩ s hs).1⟩

end apps
end adore
